import Mathlib

/-!
httptop: aggregate state, reporting and traffic monitoring, line buffering,
line parsing and descriptor sets.

A shallow embedding of `httptop.go`.  The process-wide singleton `WEB_SERVICE`
becomes an explicit `WebService` value that every loop body takes and returns;
what a loop body prints is returned next to the new state as a list of `Output`
records.

Conventions of the embedding:

* Go's `int` is embedded as `Int`.  The byte counters are advanced by a parsed
  byte count, which can be as large as the largest `int`, so `+=` on them is
  addition followed by the reduction `toInt64` to 64 bits.  The hit and error
  counters are advanced by one per log line and would take 2^63 events to
  leave the range; the development reads them as mathematical integers.
* `time.Time` values are opaque stamps (`Time`); the code only formats them.
* `Sections map[string]*Section` is an association list in insertion order,
  looked up by the first entry with the key.  Go never deletes or replaces an
  entry of this map, so the `*Section` stored under a key is the same object
  for the life of the process, and a pointer to a section is represented by the
  key it is stored under (`BusiestSection : Option String`, `none` for `nil`).
* The file handles of `WebService` take no part in the aggregate logic and are
  left out of the record.
* Go strings are embedded as `String`; the standard-library functions the
  parser calls on them (`strings.SplitN`, `strings.Split`, `strings.Trim`,
  `strconv.Atoi`) are written out for the one-character arguments the code
  passes, and an `error` result is `none`.  The compiled patterns, white-space
  trimming and `time.Parse` stay abstract in a `Library`.
* The words of a descriptor set are `int64`, embedded as `Int` with the
  same reduction where a shift can leave the range.
-/

namespace Httptop

/-- A `time.Time` stamp; the code only passes it on to the printed line. -/
abbrev Time := Nat

/-- Go `type Event struct`. -/
structure Event where
  SectionName : String
  Host : String
  Timestamp : Time
  Method : String
  Resource : String
  Version : String
  Bytes : Int
  Status : Int
  Referer : String
  UserAgent : String
  IsError : Bool
deriving DecidableEq, Repr

/-- Go `type Section struct`. -/
structure Section where
  Name : String
  HitCount : Int
  BytesTransferred : Int
  ErrorCount : Int
deriving DecidableEq, Repr

/-- Go `type WebService struct`, without the log file handles. -/
structure WebService where
  BusiestSection : Option String
  HitCount : Int
  BytesTransferred : Int
  ErrorCount : Int
  HitLimit : Int
  HighTraffic : Bool
  LimitCrossed : Time
  Sections : List (String × Section)
deriving DecidableEq, Repr

/-- One line written to standard output by a timer loop. -/
inductive Output where
  /-- Printed as `"[%s] No activity\n"`. -/
  | noActivity (currentTime : Time)
  /-- Printed as `"[%s]: Transferred: %d KB | Errors: %d | Top Section: %s (%d)\n"` -/
  | summary (currentTime : Time) (kilobytes : Int) (errors : Int)
      (topSection : String) (topHits : Int)
  /-- Printed as `"High traffic generated an alert - hits = %d, triggered at %s\n"` -/
  | alert (hits : Int) (currentTime : Time)
  /-- Printed as `"High traffic subsided at %s\n"` -/
  | subsided (currentTime : Time)
deriving DecidableEq, Repr

/-- The state `SetWebService` builds: no busiest section, zero counters, the
configured limit, no alert, the zero time, an empty map. -/
def SetWebService (hitLimit : Int) : WebService :=
  { BusiestSection := none
    HitCount := 0
    BytesTransferred := 0
    ErrorCount := 0
    HitLimit := hitLimit
    HighTraffic := false
    LimitCrossed := 0
    Sections := [] }

/-- Map read `WEB_SERVICE.Sections[name]`: the section and whether it is there. -/
def lookupSection (name : String) : List (String × Section) → Option Section
  | [] => none
  | (k, sec) :: rest => if k = name then some sec else lookupSection name rest

/-- Write through the pointer stored under `name`: the fields of that section
are replaced, the entry stays where it is. -/
def storeSection (name : String) (sec : Section) :
    List (String × Section) → List (String × Section)
  | [] => []
  | (k, old) :: rest =>
    if k = name then (k, sec) :: rest else (k, old) :: storeSection name sec rest

/-- The value of `WEB_SERVICE.BusiestSection.HitCount`, read through the pointer.  The
pointer always designates a section of the map, so the `none` branch stands for
no Go state. -/
def busiestHitCount (name : String) (sections : List (String × Section)) : Int :=
  match lookupSection name sections with
  | some sec => sec.HitCount
  | none => 0

/-- A mathematical integer reduced to the `int64` with the same low 64 bits:
what Go's `int` holds after an addition or a shift that left the range. -/
def toInt64 (x : Int) : Int :=
  (x + 2 ^ 63) % 2 ^ 64 - 2 ^ 63

/-- The first half of the loop body of `HandleEvents`: look the section of the
event up, count the event in it, or create it with the counts of this one
event.  Returns the map and `section`, the section the event went to. -/
def foldSection (event : Event) (sections : List (String × Section)) :
    List (String × Section) × Section :=
  match lookupSection event.SectionName sections with
  | some sec =>
    let updated : Section :=
      { Name := sec.Name
        HitCount := sec.HitCount + 1
        BytesTransferred := toInt64 (sec.BytesTransferred + event.Bytes)
        ErrorCount := if event.IsError then sec.ErrorCount + 1 else sec.ErrorCount }
    (storeSection event.SectionName updated sections, updated)
  | none =>
    let created : Section :=
      { Name := event.SectionName
        HitCount := 1
        BytesTransferred := event.Bytes
        ErrorCount := if event.IsError then 0 + 1 else 0 }
    (sections ++ [(event.SectionName, created)], created)

/-- One iteration of the loop of `HandleEvents`: fold one event into the
per-section and global counters and recompute the busiest section.  The test
`section != WEB_SERVICE.BusiestSection` compares pointers, here the keys. -/
def HandleEvents (event : Event) (ws : WebService) : WebService :=
  let folded := foldSection event ws.Sections
  let busiest :=
    match ws.BusiestSection with
    | none => some event.SectionName
    | some b =>
      if event.SectionName ≠ b ∧ folded.2.HitCount > busiestHitCount b folded.1 then
        some event.SectionName
      else
        some b
  { ws with
    Sections := folded.1
    BusiestSection := busiest
    HitCount := ws.HitCount + 1
    BytesTransferred := toInt64 (ws.BytesTransferred + event.Bytes)
    ErrorCount := if event.IsError then ws.ErrorCount + 1 else ws.ErrorCount }

/-- The loop over the map at the end of `PrintPeriodicStats`: every section's
three counters are set to zero. -/
def resetSections : List (String × Section) → List (String × Section)
  | [] => []
  | (k, sec) :: rest =>
    (k, { sec with HitCount := 0, BytesTransferred := 0, ErrorCount := 0 }) ::
      resetSections rest

/-- The name printed for the busiest section, `BusiestSection.Name`. -/
def busiestName (name : String) (sections : List (String × Section)) : String :=
  match lookupSection name sections with
  | some sec => sec.Name
  | none => name

/-- One iteration of the loop of `PrintPeriodicStats`: print the summary of the
window (or that there was no activity) and reset the reporting window. -/
def PrintPeriodicStats (currentTime : Time) (ws : WebService) :
    WebService × List Output :=
  let printed :=
    match ws.BusiestSection with
    | none => [Output.noActivity currentTime]
    | some b =>
      [Output.summary currentTime (Int.tdiv ws.BytesTransferred 1024) ws.ErrorCount
        (busiestName b ws.Sections) (busiestHitCount b ws.Sections)]
  ({ ws with
      BusiestSection := none
      BytesTransferred := 0
      ErrorCount := 0
      Sections := resetSections ws.Sections },
    printed)

/-- One iteration of the loop of `WatchTraffic`: compare the hit counter with
the limit, print on the way, and reset the counter. -/
def WatchTraffic (currentTime : Time) (ws : WebService) : WebService × List Output :=
  if ws.HitCount > ws.HitLimit then
    ({ ws with HighTraffic := true, HitCount := 0 },
      [Output.alert ws.HitCount currentTime])
  else
    ({ ws with HighTraffic := false, HitCount := 0 },
      if ws.HighTraffic then [Output.subsided currentTime] else [])

/-- What the scheduler can run next: the aggregator takes an event off the
queue, or one of the two tickers fires. -/
inductive Step where
  | event (e : Event)
  | report (currentTime : Time)
  | traffic (currentTime : Time)
deriving DecidableEq, Repr

/-- Run one step on the state, appending what it prints. -/
def step (cfg : WebService × List Output) : Step → WebService × List Output
  | Step.event e => (HandleEvents e cfg.1, cfg.2)
  | Step.report t => ((PrintPeriodicStats t cfg.1).1, cfg.2 ++ (PrintPeriodicStats t cfg.1).2)
  | Step.traffic t => ((WatchTraffic t cfg.1).1, cfg.2 ++ (WatchTraffic t cfg.1).2)

/-- Run an interleaving of steps from a state and the lines printed so far. -/
def runFrom (cfg : WebService × List Output) (steps : List Step) :
    WebService × List Output :=
  steps.foldl step cfg

/-- Run an interleaving of steps from a state, starting with nothing printed. -/
def run (ws : WebService) (steps : List Step) : WebService × List Output :=
  runFrom (ws, []) steps

/-- The steps that fold a list of events, in order. -/
def events (es : List Event) : List Step :=
  es.map Step.event

/-- Whether a printed line is the high-traffic alert. -/
def Output.isAlert : Output → Bool
  | Output.alert _ _ => true
  | _ => false

/-- An event for a section with given byte count and error flag, the other
fields blank. -/
def hit (sectionName : String) (bytes : Int) (isError : Bool) : Event :=
  { SectionName := sectionName, Host := "", Timestamp := 0, Method := "GET",
    Resource := sectionName, Version := "HTTP/1.1", Bytes := bytes, Status := 200,
    Referer := "", UserAgent := "", IsError := isError }

/-- The events folded since the last reporting tick, or since the start when
there was none, oldest first. -/
def eventsSinceReport (steps : List Step) : List Event :=
  steps.foldl
    (fun window st =>
      match st with
      | Step.event e => window ++ [e]
      | Step.report _ => []
      | Step.traffic _ => window)
    []

/-- The events folded since the last traffic tick, or since the start when
there was none, oldest first. -/
def eventsSinceTraffic (steps : List Step) : List Event :=
  steps.foldl
    (fun window st =>
      match st with
      | Step.event e => window ++ [e]
      | Step.report _ => window
      | Step.traffic _ => [])
    []

/-- Sum of `HitCount` over all sections of the map. -/
def sumHitCount (sections : List (String × Section)) : Int :=
  (sections.map fun entry => entry.2.HitCount).sum

/-- How many events of a list are for the section `name`. -/
def hitsOf (name : String) (es : List Event) : Int :=
  ((es.filter fun e => e.SectionName = name).length : Int)

/-- Sum of the byte counts of a list of events. -/
def bytesOf (es : List Event) : Int :=
  (es.map fun e => e.Bytes).sum

/-- How many events of a list have the error flag set. -/
def errorsOf (es : List Event) : Int :=
  ((es.filter fun e => e.IsError).length : Int)

/-- What the busiest-section pointer has to satisfy: while it is `nil` every
section of the map has hit count zero, and otherwise it designates a section of
the map whose hit count no section of the map exceeds. -/
def BusiestOK (ws : WebService) : Prop :=
  (ws.BusiestSection = none → ∀ k t, (k, t) ∈ ws.Sections → t.HitCount = 0) ∧
  (∀ b, ws.BusiestSection = some b →
    ∃ sec, lookupSection b ws.Sections = some sec ∧
      ∀ k t, (k, t) ∈ ws.Sections → t.HitCount ≤ sec.HitCount)

/-- How the reporting-window state reflects the events `w` folded since the
last reporting tick: a section stored under a key carries that key as its name
and counts the events of `w` for it, every section an event of `w` names is in
the map, the global byte counter is the total over `w` reduced to 64 bits, the
global error counter is the total over `w`, and the busiest section is `nil` for an empty `w` and otherwise a section named in `w`
with the most events of `w`. -/
def WindowOK (ws : WebService) (w : List Event) : Prop :=
  (∀ k sec, lookupSection k ws.Sections = some sec →
    sec.Name = k ∧ sec.HitCount = hitsOf k w) ∧
  (∀ e ∈ w, ∃ sec, lookupSection e.SectionName ws.Sections = some sec) ∧
  ws.BytesTransferred = toInt64 (bytesOf w) ∧
  ws.ErrorCount = errorsOf w ∧
  (w = [] → ws.BusiestSection = none) ∧
  (w ≠ [] → ∃ b, ws.BusiestSection = some b ∧ (∃ e ∈ w, e.SectionName = b) ∧
    ∀ m, hitsOf m w ≤ hitsOf b w)

/-! ## The file tailer: line buffering -/

/-- A byte of the log file. -/
abbrev Byte := UInt8

/-- The line terminator `'\n'`. -/
def newline : Byte := 10

/-- The call `bytes.Buffer.ReadString('\n')` on a buffer holding `buf`: the data up to
and including the first newline and what stays in the buffer, or, when there is
no newline, all the data, an empty buffer, and the flag for `io.EOF`. -/
def readString : List Byte → List Byte × List Byte × Bool
  | [] => ([], [], true)
  | b :: rest =>
    if b = newline then ([b], rest, false)
    else (b :: (readString rest).1, (readString rest).2.1, (readString rest).2.2)

/-- The inner `for` loop of `WatchFile`: read strings off the buffer, sending
each complete one to `lines`, until `io.EOF`; the buffer is then reset and the
incomplete string written back.  Returns the lines sent and the new buffer,
`none` when the fuel runs out first. -/
def drainBuffer : Nat → List Byte → Option (List (List Byte) × List Byte)
  | 0, _ => none
  | fuel + 1, buf =>
    match readString buf with
    | (line, _, true) => some ([], line)
    | (line, rest, false) => (drainBuffer fuel rest).map fun r => (line :: r.1, r.2)

/-- One read cycle of `WatchFile` once the descriptor is readable: `chunk` is
`inputBuffer[:n]`.  Nothing happens for `n <= 0`; otherwise the chunk is
written to the buffer and the buffer drained. -/
def WatchFile (buf chunk : List Byte) : Option (List (List Byte) × List Byte) :=
  if chunk.length ≤ 0 then some ([], buf)
  else drainBuffer ((buf ++ chunk).length + 1) (buf ++ chunk)

/-- The read cycles of `WatchFile` for a sequence of chunks, from a retained
buffer: all lines sent, in order, and the buffer retained at the end. -/
def watchReads : List Byte → List (List Byte) → Option (List (List Byte) × List Byte)
  | buf, [] => some ([], buf)
  | buf, chunk :: chunks =>
    match WatchFile buf chunk with
    | none => none
    | some r => (watchReads r.2 chunks).map fun r' => (r.1 ++ r'.1, r'.2)

/-- The newline-terminated lines of a byte sequence, without their
terminators: all pieces of the split at newlines but the last. -/
def terminatedLines (bytes : List Byte) : List (List Byte) :=
  (bytes.splitOn newline).dropLast

/-- The trailing unterminated fragment of a byte sequence: the last piece of
the split at newlines. -/
def trailingFragment (bytes : List Byte) : List Byte :=
  (bytes.splitOn newline).getLastD []

/-- A line without its last byte, the terminator. -/
def stripTerminator (line : List Byte) : List Byte :=
  line.dropLast

/-! ## The line parser -/

/-- The map `HTTP_METHODS`, as the list of its keys. -/
def HTTP_METHODS : List String :=
  ["GET", "HEAD", "POST", "PUT", "DELETE", "OPTIONS", "TRACE", "CONNECT"]

/-- The pieces of `strings.SplitN(s, sep, n)` for a one-character separator,
on the characters of `s`: at most `n` pieces, cut at the first occurrences of
the separator, the last piece being the remainder, not split. -/
def splitNChars (sep : Char) : Nat → List Char → List (List Char)
  | 0, _ => []
  | 1, s => [s]
  | n + 2, s =>
    if sep ∈ s then
      s.takeWhile (fun c => c ≠ sep) ::
        splitNChars sep (n + 1) ((s.dropWhile (fun c => c ≠ sep)).drop 1)
    else [s]

/-- The standard library's `strings.SplitN(s, sep, n)` for a one-character
separator. -/
def SplitN (s : String) (sep : Char) (n : Nat) : List String :=
  (splitNChars sep n s.toList).map String.mk

/-- The standard library's `strings.Split(s, sep)` for a one-character
separator: the pieces between the separators, one more than there are
separators. -/
def Split (s : String) (sep : Char) : List String :=
  (s.toList.splitOn sep).map String.mk

/-- The standard library's `strings.Trim(s, cutset)` for a one-character
cutset: all leading and trailing occurrences of the character are removed. -/
def Trim (s : String) (cut : Char) : String :=
  String.mk (((s.toList.dropWhile (fun c => c = cut)).reverse.dropWhile
    (fun c => c = cut)).reverse)

/-- The value of a string of decimal digits read after `acc`, `none` when a
character is not a digit. -/
def digitsValue : List Char → Nat → Option Nat
  | [], acc => some acc
  | c :: cs, acc =>
    if '0' ≤ c ∧ c ≤ '9' then digitsValue cs (acc * 10 + (c.toNat - '0'.toNat)) else none

/-- The standard library's `strconv.Atoi`: an optional sign `+` or `-`, then
one or more decimal digits and nothing else; the value has to fit a 64-bit
`int`.  Here `none` stands for a non-nil error. -/
def Atoi (s : String) : Option Int :=
  let neg := s.toList.head? = some '-'
  let digits :=
    match s.toList with
    | '-' :: rest => rest
    | '+' :: rest => rest
    | cs => cs
  if digits = [] then none
  else
    match digitsValue digits 0 with
    | none => none
    | some n =>
      let v : Int := if neg then -(n : Int) else (n : Int)
      if -(2 : Int) ^ 63 ≤ v ∧ v < (2 : Int) ^ 63 then some v else none

/-- Go `ParseRequest`: the method, the resource and the version of a request,
`none` for an error. -/
def ParseRequest (request : String) : Option (String × String × String) :=
  let components := SplitN request ' ' 3
  if components.length ≠ 3 then none
  else if components.getD 0 "" ∉ HTTP_METHODS then none
  else some (components.getD 0 "", components.getD 1 "", components.getD 2 "")

/-- Go `ParseResource`: the section of a resource, `none` for an error. -/
def ParseResource (resource : String) : Option String :=
  let trimmedResource := Trim resource '/'
  let components := Split trimmedResource '/'
  if components.length < 1 then none
  else some ("/" ++ components.getD 0 "")

/-- The status codes of the standard library's `net/http` that
`ParseHTTPStatus` names. -/
def StatusContinue : Int := 100
def StatusSwitchingProtocols : Int := 101
def StatusOK : Int := 200
def StatusCreated : Int := 201
def StatusAccepted : Int := 202
def StatusNonAuthoritativeInfo : Int := 203
def StatusNoContent : Int := 204
def StatusResetContent : Int := 205
def StatusPartialContent : Int := 206
def StatusMultipleChoices : Int := 300
def StatusMovedPermanently : Int := 301
def StatusFound : Int := 302
def StatusSeeOther : Int := 303
def StatusNotModified : Int := 304
def StatusUseProxy : Int := 305
def StatusTemporaryRedirect : Int := 307
def StatusBadRequest : Int := 400
def StatusUnauthorized : Int := 401
def StatusPaymentRequired : Int := 402
def StatusForbidden : Int := 403
def StatusNotFound : Int := 404
def StatusMethodNotAllowed : Int := 405
def StatusNotAcceptable : Int := 406
def StatusProxyAuthRequired : Int := 407
def StatusRequestTimeout : Int := 408
def StatusConflict : Int := 409
def StatusGone : Int := 410
def StatusLengthRequired : Int := 411
def StatusPreconditionFailed : Int := 412
def StatusRequestEntityTooLarge : Int := 413
def StatusRequestURITooLong : Int := 414
def StatusUnsupportedMediaType : Int := 415
def StatusRequestedRangeNotSatisfiable : Int := 416
def StatusExpectationFailed : Int := 417
def StatusTeapot : Int := 418
def StatusInternalServerError : Int := 500
def StatusNotImplemented : Int := 501
def StatusBadGateway : Int := 502
def StatusServiceUnavailable : Int := 503
def StatusGatewayTimeout : Int := 504
def StatusHTTPVersionNotSupported : Int := 505

/-- Go `ParseHTTPStatus`: the status code and the error flag, `none` for an
error. -/
def ParseHTTPStatus (status : String) : Option (Int × Bool) :=
  match Atoi status with
  | none => none
  | some code =>
    if code ≠ StatusContinue ∧
        code ≠ StatusSwitchingProtocols ∧
        code ≠ StatusOK ∧
        code ≠ StatusCreated ∧
        code ≠ StatusAccepted ∧
        code ≠ StatusNonAuthoritativeInfo ∧
        code ≠ StatusNoContent ∧
        code ≠ StatusResetContent ∧
        code ≠ StatusPartialContent ∧
        code ≠ StatusMultipleChoices ∧
        code ≠ StatusMovedPermanently ∧
        code ≠ StatusFound ∧
        code ≠ StatusSeeOther ∧
        code ≠ StatusNotModified ∧
        code ≠ StatusUseProxy ∧
        code ≠ StatusTemporaryRedirect ∧
        code ≠ StatusBadRequest ∧
        code ≠ StatusUnauthorized ∧
        code ≠ StatusPaymentRequired ∧
        code ≠ StatusForbidden ∧
        code ≠ StatusNotFound ∧
        code ≠ StatusMethodNotAllowed ∧
        code ≠ StatusNotAcceptable ∧
        code ≠ StatusProxyAuthRequired ∧
        code ≠ StatusRequestTimeout ∧
        code ≠ StatusConflict ∧
        code ≠ StatusGone ∧
        code ≠ StatusLengthRequired ∧
        code ≠ StatusPreconditionFailed ∧
        code ≠ StatusRequestEntityTooLarge ∧
        code ≠ StatusRequestURITooLong ∧
        code ≠ StatusUnsupportedMediaType ∧
        code ≠ StatusRequestedRangeNotSatisfiable ∧
        code ≠ StatusExpectationFailed ∧
        code ≠ StatusTeapot ∧
        code ≠ StatusInternalServerError ∧
        code ≠ StatusNotImplemented ∧
        code ≠ StatusBadGateway ∧
        code ≠ StatusServiceUnavailable ∧
        code ≠ StatusGatewayTimeout ∧
        code ≠ StatusHTTPVersionNotSupported then
      none
    else
      some (code,
        decide (code = StatusBadRequest ∨
          code = StatusUnauthorized ∨
          code = StatusPaymentRequired ∨
          code = StatusForbidden ∨
          code = StatusNotFound ∨
          code = StatusMethodNotAllowed ∨
          code = StatusNotAcceptable ∨
          code = StatusProxyAuthRequired ∨
          code = StatusRequestTimeout ∨
          code = StatusConflict ∨
          code = StatusGone ∨
          code = StatusLengthRequired ∨
          code = StatusPreconditionFailed ∨
          code = StatusRequestEntityTooLarge ∨
          code = StatusRequestURITooLong ∨
          code = StatusUnsupportedMediaType ∨
          code = StatusRequestedRangeNotSatisfiable ∨
          code = StatusExpectationFailed ∨
          code = StatusTeapot ∨
          code = StatusInternalServerError ∨
          code = StatusNotImplemented ∨
          code = StatusBadGateway ∨
          code = StatusServiceUnavailable ∨
          code = StatusGatewayTimeout ∨
          code = StatusHTTPVersionNotSupported))

/-- The standard-library calls of `ParseLine` that stay abstract: trimming of
white space, the two compiled patterns (`FindStringSubmatch`, which gives the
whole match and the captured groups, or `nil`), and `ParseTimestamp`, which is
`time.Parse` with a fixed layout. -/
structure Library where
  TrimSpace : String → String
  ECLF_REGEXP : String → Option (List String)
  CLF_REGEXP : String → Option (List String)
  ParseTimestamp : String → Option Time

/-- The pattern step of `ParseLine`: the extended pattern is tried first, then
the base pattern.  Returns `components` and `isExtended`. -/
def matchLine (lib : Library) (line : String) : Option (List String × Bool) :=
  match lib.ECLF_REGEXP line with
  | some components => some (components, true)
  | none =>
    match lib.CLF_REGEXP line with
    | some components => some (components, false)
    | none => none

/-- The byte-count step of `ParseLine`: zero for `"-"`, otherwise what
`strconv.Atoi` gives. -/
def parseByteCount (field : String) : Option Int :=
  if field ≠ "-" then Atoi field else some 0

/-- One iteration of the loop of `ParseLine` on a line taken off the queue: the
event sent to `events`, or `none` when the iteration ends in `continue`.
A pattern that matches gives all its groups, so `components[i]` is read with a
default that is never used. -/
def ParseLine (lib : Library) (raw : String) : Option Event :=
  let line := lib.TrimSpace raw
  if line.length = 0 then none
  else
    match matchLine lib line with
    | none => none
    | some (components, isExtended) =>
      match lib.ParseTimestamp (components.getD 4 "") with
      | none => none
      | some timestamp =>
        match ParseRequest (components.getD 5 "") with
        | none => none
        | some (method, resource, version) =>
          match ParseResource resource with
          | none => none
          | some sectionName =>
            match ParseHTTPStatus (components.getD 6 "") with
            | none => none
            | some (status, isError) =>
              match parseByteCount (components.getD 7 "") with
              | none => none
              | some byteCount =>
                some
                  { SectionName := sectionName
                    Host := components.getD 1 ""
                    Timestamp := timestamp
                    Method := method
                    Resource := resource
                    Version := version
                    Bytes := byteCount
                    Status := status
                    Referer := if isExtended then components.getD 8 "" else ""
                    UserAgent := if isExtended then components.getD 9 "" else ""
                    IsError := isError }

/-- The codes the allow-list is said to hold: 100, 101, 200 to 206, 300 to 305,
307, 400 to 418 and 500 to 505. -/
def onAllowList (code : Int) : Prop :=
  code = 100 ∨ code = 101 ∨ (200 ≤ code ∧ code ≤ 206) ∨ (300 ≤ code ∧ code ≤ 305) ∨
    code = 307 ∨ (400 ≤ code ∧ code ≤ 418) ∨ (500 ≤ code ∧ code ≤ 505)

/-- The text of a request before its first space. -/
def methodToken (request : String) : String :=
  String.mk (request.toList.takeWhile (fun c => c ≠ ' '))

/-- A library for worked examples.  It knows three lines without surrounding
white space and answers for them with the groups the patterns capture: a base
line, the same line with byte count `-4096`, and an extended line; every
timestamp parses to the stamp 971211336. -/
def sampleLibrary : Library :=
  { TrimSpace := fun s => s
    ECLF_REGEXP := fun line =>
      if line = "10.0.0.7 - - [10/Oct/2000:13:55:36 -0700] \"POST /api/v1/users HTTP/1.1\" 404 - \"http://example.org/\" \"curl/8.0\"" then
        some ["10.0.0.7 - - [10/Oct/2000:13:55:36 -0700] \"POST /api/v1/users HTTP/1.1\" 404 - \"http://example.org/\" \"curl/8.0\"",
          "10.0.0.7", "-", "-", "10/Oct/2000:13:55:36 -0700", "POST /api/v1/users HTTP/1.1",
          "404", "-", "http://example.org/", "curl/8.0"]
      else none
    CLF_REGEXP := fun line =>
      if line = "127.0.0.1 - frank [10/Oct/2000:13:55:36 -0700] \"GET /apache_pb.gif HTTP/1.0\" 200 2326" then
        some ["127.0.0.1 - frank [10/Oct/2000:13:55:36 -0700] \"GET /apache_pb.gif HTTP/1.0\" 200 2326",
          "127.0.0.1", "-", "frank", "10/Oct/2000:13:55:36 -0700",
          "GET /apache_pb.gif HTTP/1.0", "200", "2326"]
      else if line = "127.0.0.1 - frank [10/Oct/2000:13:55:36 -0700] \"GET /apache_pb.gif HTTP/1.0\" 200 -4096" then
        some ["127.0.0.1 - frank [10/Oct/2000:13:55:36 -0700] \"GET /apache_pb.gif HTTP/1.0\" 200 -4096",
          "127.0.0.1", "-", "frank", "10/Oct/2000:13:55:36 -0700",
          "GET /apache_pb.gif HTTP/1.0", "200", "-4096"]
      else none
    ParseTimestamp := fun _ => some 971211336 }

/-! ## Descriptor sets -/

/-- The type `syscall.FdSet` of linux/amd64: `Bits [16]int64`. -/
structure FdSet where
  Bits : List Int
deriving DecidableEq, Repr

/-- The operand `1 << uint(i) % 64` of `FD_SET` and `FD_ISSET` as Go evaluates
it: `<<` and `%` have the same precedence and associate to the left, so it is
`(1 << uint(i)) % 64`, computed on `int64`, the element type of `Bits`; the
remainder has the sign of the dividend. -/
def fdMask (i : Nat) : Int :=
  Int.tmod (toInt64 (1 * 2 ^ i)) 64

/-- Go `FD_SET` for a descriptor `i ≥ 0`; `none` stands for the panic of an
index out of range. -/
def FD_SET (p : FdSet) (i : Nat) : Option FdSet :=
  match p.Bits[i / 64]? with
  | none => none
  | some word => some { Bits := p.Bits.set (i / 64) (Int.lor word (fdMask i)) }

/-- Go `FD_ISSET` for a descriptor `i ≥ 0`; `none` stands for the panic of an
index out of range. -/
def FD_ISSET (p : FdSet) (i : Nat) : Option Bool :=
  match p.Bits[i / 64]? with
  | none => none
  | some word => some (decide (Int.land word (fdMask i) ≠ 0))

/-- Go `FD_ZERO`: every word is set to zero. -/
def FD_ZERO (p : FdSet) : FdSet :=
  { Bits := p.Bits.map fun _ => 0 }

/-- The sequence `FD_ZERO(p)`, `FD_SET(p, i)`, `FD_ISSET(p, j)` on one
descriptor set, as in the loop of `WatchFile`: clear the set, add a
descriptor, test a descriptor. -/
def setThenTest (p : FdSet) (i j : Nat) : Option Bool :=
  match FD_SET (FD_ZERO p) i with
  | none => none
  | some q => FD_ISSET q j

/-! ## Byte and error totals -/

/-- Sum of `BytesTransferred` over all sections of the map. -/
def sumBytesTransferred (sections : List (String × Section)) : Int :=
  (sections.map fun entry => entry.2.BytesTransferred).sum

/-- Sum of `ErrorCount` over all sections of the map. -/
def sumErrorCount (sections : List (String × Section)) : Int :=
  (sections.map fun entry => entry.2.ErrorCount).sum

/-! # Theorems -/

/-! ## Reduction to 64 bits -/

theorem toInt64_of_range (x : Int) (h1 : -(2 : Int) ^ 63 ≤ x) (h2 : x < (2 : Int) ^ 63) :
    toInt64 x = x := by
  unfold toInt64
  omega

theorem toInt64_add_toInt64 (a b : Int) : toInt64 (toInt64 a + b) = toInt64 (a + b) := by
  unfold toInt64
  omega

theorem toInt64_swap (total old b : Int) :
    toInt64 (total - old + toInt64 (old + b)) = toInt64 (total + b) := by
  unfold toInt64
  omega

/-! ## Running steps -/

theorem runFrom_append (cfg : WebService × List Output) (xs ys : List Step) :
    runFrom cfg (xs ++ ys) = runFrom (runFrom cfg xs) ys := by
  simp [runFrom, List.foldl_append]

theorem runFrom_snoc (cfg : WebService × List Output) (xs : List Step) (x : Step) :
    runFrom cfg (xs ++ [x]) = step (runFrom cfg xs) x := by
  simp [runFrom, List.foldl_append]

theorem run_snoc (ws : WebService) (xs : List Step) (x : Step) :
    run ws (xs ++ [x]) = step (run ws xs) x :=
  runFrom_snoc (ws, []) xs x

theorem runFrom_events_traffic (es : List Event) (cfg : WebService × List Output) :
    (runFrom cfg (events es)).1.HitCount = cfg.1.HitCount + es.length ∧
    (runFrom cfg (events es)).1.HitLimit = cfg.1.HitLimit ∧
    (runFrom cfg (events es)).1.HighTraffic = cfg.1.HighTraffic ∧
    (runFrom cfg (events es)).2 = cfg.2 := by
  induction es generalizing cfg with
  | nil => simp [runFrom, events]
  | cons e es ih =>
    have h := ih (step cfg (Step.event e))
    simp only [events, List.map_cons, runFrom, List.foldl_cons] at h ⊢
    obtain ⟨h1, h2, h3, h4⟩ := h
    refine ⟨?_, ?_, ?_, ?_⟩
    · rw [h1]; simp [step, HandleEvents]; omega
    · rw [h2]; simp [step, HandleEvents]
    · rw [h3]; simp [step, HandleEvents]
    · rw [h4]; simp [step]

theorem WatchTraffic_eq (t : Time) (ws : WebService) :
    (WatchTraffic t ws).1.HighTraffic = decide (ws.HitCount > ws.HitLimit) ∧
    (WatchTraffic t ws).1.HitCount = 0 ∧
    (WatchTraffic t ws).1.HitLimit = ws.HitLimit ∧
    (WatchTraffic t ws).2 =
      if ws.HitCount > ws.HitLimit then [Output.alert ws.HitCount t]
      else if ws.HighTraffic then [Output.subsided t] else [] := by
  unfold WatchTraffic
  split <;> simp_all

theorem traffic_window (cfg : WebService × List Output) (es : List Event) (t : Time) :
    (step (runFrom cfg (events es)) (Step.traffic t)).1.HighTraffic =
      decide (cfg.1.HitCount + es.length > cfg.1.HitLimit) ∧
    (step (runFrom cfg (events es)) (Step.traffic t)).1.HitCount = 0 ∧
    (step (runFrom cfg (events es)) (Step.traffic t)).1.HitLimit = cfg.1.HitLimit ∧
    (step (runFrom cfg (events es)) (Step.traffic t)).2 = cfg.2 ++
      (if cfg.1.HitCount + es.length > cfg.1.HitLimit then
        [Output.alert (cfg.1.HitCount + es.length) t]
      else if cfg.1.HighTraffic then [Output.subsided t] else []) := by
  obtain ⟨a1, a2, a3, a4⟩ := runFrom_events_traffic es cfg
  obtain ⟨w1, w2, w3, w4⟩ := WatchTraffic_eq t (runFrom cfg (events es)).1
  simp only [step]
  rw [w1, w2, w3, w4, a1, a2, a3, a4]
  simp

/-! ## The traffic monitor -/

/-- C1. One `WatchTraffic` tick sets `HighTraffic` exactly when the hit count
before the tick is strictly above the limit, resets the hit count in every
case, prints an alert with the count it had when going from normal to high
traffic, prints the subsided line when going from high traffic to normal and
prints nothing when staying normal.  With limit 20, a window of 25 events, a
tick, a window of 5 events and a tick print one alert and then one subsided
line and end in the normal state. -/
theorem WatchTraffic_tick (ws : WebService) (t t1 t2 : Time) (es1 es2 : List Event) :
    ((WatchTraffic t ws).1.HighTraffic = true ↔ ws.HitCount > ws.HitLimit) ∧
    (WatchTraffic t ws).1.HitCount = 0 ∧
    (ws.HighTraffic = false → ws.HitCount > ws.HitLimit →
      (WatchTraffic t ws).2 = [Output.alert ws.HitCount t]) ∧
    (ws.HighTraffic = true → ws.HitCount ≤ ws.HitLimit →
      (WatchTraffic t ws).1.HighTraffic = false ∧
      (WatchTraffic t ws).2 = [Output.subsided t]) ∧
    (ws.HighTraffic = false → ws.HitCount ≤ ws.HitLimit →
      (WatchTraffic t ws).1.HighTraffic = false ∧ (WatchTraffic t ws).2 = []) ∧
    (es1.length = 25 → es2.length = 5 →
      (run (SetWebService 20) (events es1 ++ [Step.traffic t1])).1.HighTraffic = true ∧
      (run (SetWebService 20) (events es1 ++ [Step.traffic t1])).2 = [Output.alert 25 t1] ∧
      (run (SetWebService 20)
        ((events es1 ++ [Step.traffic t1]) ++ (events es2 ++ [Step.traffic t2]))).1.HighTraffic
          = false ∧
      (run (SetWebService 20)
        ((events es1 ++ [Step.traffic t1]) ++ (events es2 ++ [Step.traffic t2]))).2
          = [Output.alert 25 t1, Output.subsided t2]) := by
  refine ⟨?_, ?_, ?_, ?_, ?_, ?_⟩
  · unfold WatchTraffic; split <;> simp_all
  · unfold WatchTraffic; split <;> simp
  · intro _ h; unfold WatchTraffic; simp [h]
  · intro hf h
    have h' : ¬ ws.HitCount > ws.HitLimit := by omega
    unfold WatchTraffic; simp [h', hf]
  · intro hf h
    have h' : ¬ ws.HitCount > ws.HitLimit := by omega
    unfold WatchTraffic; simp [h', hf]
  · intro h1 h2
    have w1 := traffic_window (SetWebService 20, []) es1 t1
    rw [← runFrom_snoc] at w1
    have w2 := traffic_window (runFrom (SetWebService 20, []) (events es1 ++ [Step.traffic t1]))
      es2 t2
    rw [← runFrom_snoc, ← runFrom_append] at w2
    obtain ⟨a1, a2, a3, a4⟩ := w1
    obtain ⟨b1, -, -, b4⟩ := w2
    simp only [h1, a1, a2, a3, a4, h2] at b1 b4
    simp only [run]
    refine ⟨?_, ?_, ?_, ?_⟩
    · rw [a1, h1]; simp [SetWebService]
    · rw [a4, h1]; simp [SetWebService]
    · rw [b1]; simp [SetWebService]
    · rw [b4]; simp [SetWebService]

/-- Instances of the tick: 25 hits against a limit of 20 raise the flag, 20 hits
do not and print nothing, and the two-window scenario prints one alert and one
subsided line. -/
theorem WatchTraffic_tick_witness :
    ((WatchTraffic 1 { SetWebService 20 with HitCount := 25 }).1.HighTraffic = true ↔
      (25 : Int) > 20) ∧
    (WatchTraffic 1 { SetWebService 20 with HitCount := 20 }).1.HighTraffic = false ∧
    (WatchTraffic 1 { SetWebService 20 with HitCount := 20 }).2 = [] ∧
    (run (SetWebService 20)
      ((events (List.replicate 25 (hit "/a" 100 false)) ++ [Step.traffic 1]) ++
        (events (List.replicate 5 (hit "/a" 100 false)) ++ [Step.traffic 2]))).2
      = [Output.alert 25 1, Output.subsided 2] := by
  have h := WatchTraffic_tick { SetWebService 20 with HitCount := 25 } 1 1 2
    (List.replicate 25 (hit "/a" 100 false)) (List.replicate 5 (hit "/a" 100 false))
  have h2 := WatchTraffic_tick { SetWebService 20 with HitCount := 20 } 1 1 2 [] []
  refine ⟨?_, ?_, ?_, ?_⟩
  · simpa [SetWebService] using h.1
  · exact (h2.2.2.2.2.1 rfl (by decide)).1
  · exact (h2.2.2.2.2.1 rfl (by decide)).2
  · exact (h.2.2.2.2.2 (by simp) (by simp)).2.2.2

/-- C2, where the code departs from it.  With limit 20, after a window of 25
events and a tick the flag is up; after 25 more events the count is again above
the limit, and the next tick, from a state whose flag is already up, prints a
second alert.  The alert branch of `WatchTraffic` does not look at the flag
before printing, as the subsided branch does. -/
theorem WatchTraffic_realerts :
    (run (SetWebService 20)
      (events (List.replicate 25 (hit "/a" 0 false)) ++ [Step.traffic 1] ++
        events (List.replicate 25 (hit "/a" 0 false)))).1.HighTraffic = true ∧
    (run (SetWebService 20)
      (events (List.replicate 25 (hit "/a" 0 false)) ++ [Step.traffic 1] ++
        events (List.replicate 25 (hit "/a" 0 false)))).1.HitCount = 25 ∧
    (run (SetWebService 20)
      (events (List.replicate 25 (hit "/a" 0 false)) ++ [Step.traffic 1] ++
        events (List.replicate 25 (hit "/a" 0 false)))).1.HitLimit = 20 ∧
    (WatchTraffic 2 (run (SetWebService 20)
      (events (List.replicate 25 (hit "/a" 0 false)) ++ [Step.traffic 1] ++
        events (List.replicate 25 (hit "/a" 0 false)))).1).2 = [Output.alert 25 2] ∧
    (run (SetWebService 20)
      (events (List.replicate 25 (hit "/a" 0 false)) ++ [Step.traffic 1] ++
        events (List.replicate 25 (hit "/a" 0 false)) ++ [Step.traffic 2])).2 =
      [Output.alert 25 1, Output.alert 25 2] := by
  decide

/-- What the over-limit branch of `WatchTraffic` does whatever the flag was:
in a state whose flag is already up and whose hit count is above the limit, a
tick keeps the flag up and prints an alert with that hit count; on any tick,
from any state, an alert is among the printed lines exactly when the hit count
before the tick is above the limit. -/
theorem WatchTraffic_alert_each_high_tick (ws : WebService) (t : Time)
    (hHigh : ws.HighTraffic = true) (hOver : ws.HitCount > ws.HitLimit) :
    (WatchTraffic t ws).1.HighTraffic = true ∧
    (WatchTraffic t ws).2 = [Output.alert ws.HitCount t] ∧
    (∀ (ws' : WebService) (t' : Time),
      ((∃ o ∈ (WatchTraffic t' ws').2, o.isAlert = true) ↔ ws'.HitCount > ws'.HitLimit) ∧
      (ws'.HitCount > ws'.HitLimit → (WatchTraffic t' ws').2 = [Output.alert ws'.HitCount t'])) := by
  have _hflag := hHigh
  refine ⟨?_, ?_, ?_⟩
  · simp [WatchTraffic, hOver]
  · simp [WatchTraffic, hOver]
  · intro ws' t'
    obtain ⟨-, -, -, w4⟩ := WatchTraffic_eq t' ws'
    rw [w4]
    by_cases h : ws'.HitCount > ws'.HitLimit
    · simp [h, Output.isAlert]
    · by_cases hf : ws'.HighTraffic = true <;> simp [h, hf, Output.isAlert]

/-- An instance: with the flag up, limit 20 and 25 hits, the tick keeps the flag
up and prints an alert for 25 hits. -/
theorem WatchTraffic_alert_each_high_tick_witness :
    (WatchTraffic 2 { SetWebService 20 with HitCount := 25, HighTraffic := true }).1.HighTraffic
      = true ∧
    (WatchTraffic 2 { SetWebService 20 with HitCount := 25, HighTraffic := true }).2
      = [Output.alert 25 2] :=
  ⟨(WatchTraffic_alert_each_high_tick
      { SetWebService 20 with HitCount := 25, HighTraffic := true } 2 rfl (by decide)).1,
   (WatchTraffic_alert_each_high_tick
      { SetWebService 20 with HitCount := 25, HighTraffic := true } 2 rfl (by decide)).2.1⟩

/-! ## The section map -/

theorem lookupSection_mem {k : String} {sec : Section} {S : List (String × Section)}
    (h : lookupSection k S = some sec) : (k, sec) ∈ S := by
  induction S with
  | nil => simp [lookupSection] at h
  | cons x S ih =>
    obtain ⟨k', s'⟩ := x
    simp only [lookupSection] at h
    split at h
    · rename_i hk
      simp only [Option.some.injEq] at h
      simp [← hk, h]
    · exact List.mem_cons_of_mem _ (ih h)

theorem lookupSection_storeSection (k n : String) (sec old : Section)
    (S : List (String × Section)) (h : lookupSection n S = some old) :
    lookupSection k (storeSection n sec S) = if k = n then some sec else lookupSection k S := by
  induction S with
  | nil => simp [lookupSection] at h
  | cons x S ih =>
    obtain ⟨k', s'⟩ := x
    simp only [lookupSection] at h
    by_cases hk : k' = n
    · subst hk
      simp only [storeSection, lookupSection, if_true]
      by_cases hkk : k' = k
      · simp [hkk]
      · have : ¬ k = k' := fun e => hkk e.symm
        simp [hkk, this]
    · simp only [hk, if_false] at h
      simp only [storeSection, hk, if_false, lookupSection]
      by_cases hkk : k' = k
      · have : ¬ k = n := fun e => hk (hkk.trans e)
        simp [hkk, this]
      · simp only [hkk, if_false]
        exact ih h

theorem lookupSection_append (k n : String) (sec : Section) (S : List (String × Section)) :
    lookupSection k (S ++ [(n, sec)]) =
      match lookupSection k S with
      | some x => some x
      | none => if n = k then some sec else none := by
  induction S with
  | nil => simp [lookupSection]
  | cons x S ih =>
    obtain ⟨k', s'⟩ := x
    simp only [List.cons_append, lookupSection]
    by_cases hkk : k' = k
    · simp [hkk]
    · simp only [hkk, if_false]
      exact ih

theorem mem_storeSection {k n : String} {t sec : Section} {S : List (String × Section)}
    (h : (k, t) ∈ storeSection n sec S) : (k, t) ∈ S ∨ (k = n ∧ t = sec) := by
  induction S with
  | nil => simp [storeSection] at h
  | cons x S ih =>
    obtain ⟨k', s'⟩ := x
    simp only [storeSection] at h
    split at h
    · rename_i hk
      rcases List.mem_cons.1 h with h | h
      · right
        simp only [Prod.mk.injEq] at h
        exact ⟨h.1.trans hk, h.2⟩
      · left; exact List.mem_cons_of_mem _ h
    · rcases List.mem_cons.1 h with h | h
      · left; rw [h]; exact List.mem_cons_self _ _
      · rcases ih h with h | h
        · left; exact List.mem_cons_of_mem _ h
        · right; exact h

theorem keys_storeSection (n : String) (sec : Section) (S : List (String × Section)) :
    (storeSection n sec S).map Prod.fst = S.map Prod.fst := by
  induction S with
  | nil => rfl
  | cons x S ih =>
    obtain ⟨k', s'⟩ := x
    simp only [storeSection]
    split
    · simp
    · simp [ih]

theorem lookupSection_foldSection (k : String) (e : Event) (S : List (String × Section)) :
    lookupSection k (foldSection e S).1 =
      if k = e.SectionName then some (foldSection e S).2 else lookupSection k S := by
  unfold foldSection
  cases h : lookupSection e.SectionName S with
  | some old =>
    simp only
    exact lookupSection_storeSection k e.SectionName _ old S h
  | none =>
    simp only
    rw [lookupSection_append]
    by_cases hk : k = e.SectionName
    · subst hk; simp [h]
    · have : ¬ e.SectionName = k := fun e' => hk e'.symm
      simp only [hk, this, if_false]
      cases lookupSection k S <;> rfl

theorem mem_foldSection {k : String} {t : Section} {e : Event} {S : List (String × Section)}
    (h : (k, t) ∈ (foldSection e S).1) :
    (k, t) ∈ S ∨ (k = e.SectionName ∧ t = (foldSection e S).2) := by
  unfold foldSection at h ⊢
  cases hl : lookupSection e.SectionName S with
  | some old =>
    simp only [hl] at h ⊢
    exact mem_storeSection h
  | none =>
    simp only [hl] at h ⊢
    rcases List.mem_append.1 h with h | h
    · left; exact h
    · right; simpa using h

theorem foldSection_hitCount (e : Event) (S : List (String × Section)) :
    (foldSection e S).2.HitCount = busiestHitCount e.SectionName S + 1 := by
  unfold foldSection busiestHitCount
  cases lookupSection e.SectionName S <;> simp

theorem lookupSection_resetSections (k : String) (S : List (String × Section)) :
    lookupSection k (resetSections S) =
      (lookupSection k S).map fun sec =>
        { sec with HitCount := 0, BytesTransferred := 0, ErrorCount := 0 } := by
  induction S with
  | nil => rfl
  | cons x S ih =>
    obtain ⟨k', s'⟩ := x
    simp only [resetSections, lookupSection]
    split
    · rfl
    · exact ih

theorem mem_resetSections {k : String} {t : Section} {S : List (String × Section)}
    (h : (k, t) ∈ resetSections S) :
    t.HitCount = 0 ∧ t.BytesTransferred = 0 ∧ t.ErrorCount = 0 := by
  induction S with
  | nil => simp [resetSections] at h
  | cons x S ih =>
    obtain ⟨k', s'⟩ := x
    simp only [resetSections] at h
    rcases List.mem_cons.1 h with h | h
    · simp only [Prod.mk.injEq] at h
      simp [h.2]
    · exact ih h

theorem keys_resetSections (S : List (String × Section)) :
    (resetSections S).map Prod.fst = S.map Prod.fst := by
  induction S with
  | nil => rfl
  | cons x S ih =>
    obtain ⟨k', s'⟩ := x
    simp [resetSections, ih]

/-! ## The busiest section -/

theorem eventsSinceReport_snoc (steps : List Step) (st : Step) :
    eventsSinceReport (steps ++ [st]) =
      match st with
      | Step.event e => eventsSinceReport steps ++ [e]
      | Step.report _ => []
      | Step.traffic _ => eventsSinceReport steps := by
  simp only [eventsSinceReport, List.foldl_append, List.foldl_cons, List.foldl_nil]

theorem eventsSinceTraffic_snoc (steps : List Step) (st : Step) :
    eventsSinceTraffic (steps ++ [st]) =
      match st with
      | Step.event e => eventsSinceTraffic steps ++ [e]
      | Step.report _ => eventsSinceTraffic steps
      | Step.traffic _ => [] := by
  simp only [eventsSinceTraffic, List.foldl_append, List.foldl_cons, List.foldl_nil]

theorem eventsSinceReport_append_events (steps : List Step) (es : List Event) :
    eventsSinceReport (steps ++ events es) = eventsSinceReport steps ++ es := by
  induction es using List.reverseRecOn with
  | nil => simp [events]
  | append_singleton xs x ih =>
    simp only [events, List.map_append, List.map_cons, List.map_nil] at ih ⊢
    rw [← List.append_assoc, eventsSinceReport_snoc, ih]
    simp

theorem eventsSinceReport_events (es : List Event) : eventsSinceReport (events es) = es := by
  have h := eventsSinceReport_append_events [] es
  simpa [eventsSinceReport] using h

theorem eventsSinceTraffic_events (es : List Event) : eventsSinceTraffic (events es) = es := by
  induction es using List.reverseRecOn with
  | nil => rfl
  | append_singleton xs x ih =>
    simp only [events, List.map_append, List.map_cons, List.map_nil] at ih ⊢
    rw [eventsSinceTraffic_snoc, ih]

theorem BusiestOK_SetWebService (hitLimit : Int) : BusiestOK (SetWebService hitLimit) := by
  constructor
  · intro _ k t h
    simp [SetWebService] at h
  · intro b h
    simp [SetWebService] at h

theorem BusiestOK_HandleEvents (e : Event) (ws : WebService) (h : BusiestOK ws) :
    BusiestOK (HandleEvents e ws) := by
  obtain ⟨hnone, hsome⟩ := h
  have hlk := fun k => lookupSection_foldSection k e ws.Sections
  have hcnt := foldSection_hitCount e ws.Sections
  cases hb : ws.BusiestSection with
  | none =>
    have hzero := hnone hb
    have hbc : busiestHitCount e.SectionName ws.Sections = 0 := by
      unfold busiestHitCount
      cases hl : lookupSection e.SectionName ws.Sections with
      | none => rfl
      | some sec => exact hzero _ _ (lookupSection_mem hl)
    constructor
    · intro h'
      simp [HandleEvents, hb] at h'
    · intro b' h'
      simp only [HandleEvents, hb, Option.some.injEq] at h'
      subst h'
      refine ⟨(foldSection e ws.Sections).2, ?_, ?_⟩
      · simp only [HandleEvents]
        rw [hlk]; simp
      · intro k t hm
        simp only [HandleEvents] at hm
        rcases mem_foldSection hm with hm | ⟨-, ht⟩
        · rw [hzero k t hm, hcnt, hbc]; decide
        · rw [ht]
  | some b =>
    obtain ⟨sb, hsb, hmax⟩ := hsome b hb
    constructor
    · intro h'
      simp only [HandleEvents, hb] at h'
      split at h' <;> simp at h'
    · intro b' h'
      simp only [HandleEvents, hb] at h'
      by_cases hne : e.SectionName = b
      · have hcond : ¬ (e.SectionName ≠ b ∧
            (foldSection e ws.Sections).2.HitCount >
              busiestHitCount b (foldSection e ws.Sections).1) := fun c => c.1 hne
        rw [if_neg hcond] at h'
        simp only [Option.some.injEq] at h'
        subst h'
        refine ⟨(foldSection e ws.Sections).2, ?_, ?_⟩
        · simp only [HandleEvents]
          rw [hlk]; simp [hne]
        · intro k t hm
          simp only [HandleEvents] at hm
          have hbc : busiestHitCount e.SectionName ws.Sections = sb.HitCount := by
            unfold busiestHitCount; rw [hne, hsb]
          rcases mem_foldSection hm with hm | ⟨-, ht⟩
          · have := hmax k t hm
            rw [hcnt, hbc]; omega
          · rw [ht]
      · have hbne : ¬ b = e.SectionName := fun c => hne c.symm
        have hlb : lookupSection b (foldSection e ws.Sections).1 = some sb := by
          rw [hlk]; simp [hbne, hsb]
        have hbh : busiestHitCount b (foldSection e ws.Sections).1 = sb.HitCount := by
          unfold busiestHitCount; rw [hlb]
        rw [hbh] at h'
        by_cases hgt : (foldSection e ws.Sections).2.HitCount > sb.HitCount
        · rw [if_pos ⟨hne, hgt⟩] at h'
          simp only [Option.some.injEq] at h'
          subst h'
          refine ⟨(foldSection e ws.Sections).2, ?_, ?_⟩
          · simp only [HandleEvents]
            rw [hlk]; simp
          · intro k t hm
            simp only [HandleEvents] at hm
            rcases mem_foldSection hm with hm | ⟨-, ht⟩
            · have := hmax k t hm
              omega
            · rw [ht]
        · rw [if_neg (fun c => hgt c.2)] at h'
          simp only [Option.some.injEq] at h'
          subst h'
          refine ⟨sb, ?_, ?_⟩
          · simp only [HandleEvents]
            exact hlb
          · intro k t hm
            simp only [HandleEvents] at hm
            rcases mem_foldSection hm with hm | ⟨-, ht⟩
            · exact hmax k t hm
            · rw [ht]; omega

theorem BusiestOK_PrintPeriodicStats (t : Time) (ws : WebService) :
    BusiestOK (PrintPeriodicStats t ws).1 := by
  constructor
  · intro _ k sec hm
    simp only [PrintPeriodicStats] at hm
    exact (mem_resetSections hm).1
  · intro b h
    simp [PrintPeriodicStats] at h

theorem BusiestOK_WatchTraffic (t : Time) (ws : WebService) (h : BusiestOK ws) :
    BusiestOK (WatchTraffic t ws).1 := by
  unfold WatchTraffic
  split <;> exact h

theorem BusiestOK_step (cfg : WebService × List Output) (st : Step) (h : BusiestOK cfg.1) :
    BusiestOK (step cfg st).1 := by
  cases st with
  | event e => exact BusiestOK_HandleEvents e cfg.1 h
  | report t => exact BusiestOK_PrintPeriodicStats t cfg.1
  | traffic t => exact BusiestOK_WatchTraffic t cfg.1 h

theorem BusiestOK_run (hitLimit : Int) (steps : List Step) :
    BusiestOK (run (SetWebService hitLimit) steps).1 := by
  induction steps using List.reverseRecOn with
  | nil => exact BusiestOK_SetWebService hitLimit
  | append_singleton xs x ih =>
    rw [run_snoc]
    exact BusiestOK_step _ x ih

theorem busiest_none_iff (hitLimit : Int) (steps : List Step) :
    (run (SetWebService hitLimit) steps).1.BusiestSection = none ↔
      eventsSinceReport steps = [] := by
  induction steps using List.reverseRecOn with
  | nil => simp [run, runFrom, SetWebService, eventsSinceReport]
  | append_singleton xs x ih =>
    rw [run_snoc, eventsSinceReport_snoc]
    cases x with
    | event e =>
      simp only [step, HandleEvents]
      constructor
      · intro h
        split at h
        · simp at h
        · split at h <;> simp at h
      · intro h
        simp at h
    | report t => simp [step, PrintPeriodicStats]
    | traffic t =>
      simp only [step]
      rw [← ih]
      unfold WatchTraffic
      split <;> rfl

/-- C3. In every state reached from the initial state by any interleaving of
event steps, reporting ticks and traffic ticks, `BusiestSection` is `nil`
exactly when no event was folded since the last reporting tick (or since the
start), and otherwise it designates a section of the map whose hit count is at
least the hit count of every section of the map. -/
theorem BusiestSection_invariant (hitLimit : Int) (steps : List Step) :
    ((run (SetWebService hitLimit) steps).1.BusiestSection = none ↔
      eventsSinceReport steps = []) ∧
    (∀ b, (run (SetWebService hitLimit) steps).1.BusiestSection = some b →
      ∃ sec, lookupSection b (run (SetWebService hitLimit) steps).1.Sections = some sec ∧
        (b, sec) ∈ (run (SetWebService hitLimit) steps).1.Sections ∧
        ∀ k t, (k, t) ∈ (run (SetWebService hitLimit) steps).1.Sections →
          t.HitCount ≤ sec.HitCount) := by
  refine ⟨busiest_none_iff hitLimit steps, ?_⟩
  intro b hb
  obtain ⟨sec, h1, h2⟩ := (BusiestOK_run hitLimit steps).2 b hb
  exact ⟨sec, h1, lookupSection_mem h1, h2⟩

/-- C4. In a state whose busiest section is `b`, folding an event for another
section makes that section the busiest exactly when its hit count after the
step is strictly greater than the hit count of `b`; when it only reaches the
hit count of `b`, the busiest section remains `b`.  The section `b` itself
reads after the step as it did before. -/
theorem BusiestSection_tie_break (ws : WebService) (e : Event) (b : String)
    (hb : ws.BusiestSection = some b) (hne : e.SectionName ≠ b) :
    ∃ st, lookupSection e.SectionName (HandleEvents e ws).Sections = some st ∧
      lookupSection b (HandleEvents e ws).Sections = lookupSection b ws.Sections ∧
      busiestHitCount b (HandleEvents e ws).Sections = busiestHitCount b ws.Sections ∧
      ((HandleEvents e ws).BusiestSection = some e.SectionName ↔
        st.HitCount > busiestHitCount b ws.Sections) ∧
      (st.HitCount = busiestHitCount b ws.Sections →
        (HandleEvents e ws).BusiestSection = some b) ∧
      (st.HitCount ≤ busiestHitCount b ws.Sections ↔
        (HandleEvents e ws).BusiestSection = some b) := by
  have hbne : ¬ b = e.SectionName := fun c => hne c.symm
  have hlb : lookupSection b (foldSection e ws.Sections).1 = lookupSection b ws.Sections := by
    rw [lookupSection_foldSection]; simp [hbne]
  have hbh : busiestHitCount b (foldSection e ws.Sections).1 =
      busiestHitCount b ws.Sections := by
    unfold busiestHitCount; rw [hlb]
  have hbusy : (HandleEvents e ws).BusiestSection =
      if (foldSection e ws.Sections).2.HitCount > busiestHitCount b ws.Sections then
        some e.SectionName
      else some b := by
    simp only [HandleEvents, hb, hbh]
    by_cases hgt : (foldSection e ws.Sections).2.HitCount > busiestHitCount b ws.Sections
    · rw [if_pos ⟨hne, hgt⟩, if_pos hgt]
    · rw [if_neg (fun c => hgt c.2), if_neg hgt]
  refine ⟨(foldSection e ws.Sections).2, ?_, hlb, hbh, ?_, ?_, ?_⟩
  · simp only [HandleEvents]
    rw [lookupSection_foldSection]; simp
  · rw [hbusy]
    by_cases hgt : (foldSection e ws.Sections).2.HitCount > busiestHitCount b ws.Sections
    · simp [hgt]
    · simp only [hgt, if_false, Option.some.injEq, iff_false]
      exact hbne
  · intro heq
    rw [hbusy, if_neg (by omega)]
  · rw [hbusy]
    by_cases hgt : (foldSection e ws.Sections).2.HitCount > busiestHitCount b ws.Sections
    · simp only [hgt, if_true, Option.some.injEq]
      constructor
      · intro h; omega
      · intro h; exact absurd h hne
    · simp only [hgt, if_false, iff_true]
      omega

set_option maxRecDepth 100000 in
/-- An instance of the tie-break: after five events for "/a" and four for "/b" a
fifth event for "/b" leaves "/a" the busiest; a sixth one makes "/b" the
busiest, and a sixth event for "/a" keeps "/a". -/
theorem BusiestSection_tie_break_witness :
    (run (SetWebService 20)
      (events (List.replicate 5 (hit "/a" 0 false) ++
        List.replicate 4 (hit "/b" 0 false)))).1.BusiestSection = some "/a" ∧
    busiestHitCount "/a" (run (SetWebService 20)
      (events (List.replicate 5 (hit "/a" 0 false) ++
        List.replicate 4 (hit "/b" 0 false)))).1.Sections = 5 ∧
    (∃ st, lookupSection "/b" (HandleEvents (hit "/b" 0 false) (run (SetWebService 20)
        (events (List.replicate 5 (hit "/a" 0 false) ++
          List.replicate 4 (hit "/b" 0 false)))).1).Sections = some st ∧
      st.HitCount = 5) ∧
    (run (SetWebService 20)
      (events (List.replicate 5 (hit "/a" 0 false) ++
        List.replicate 5 (hit "/b" 0 false)))).1.BusiestSection = some "/a" ∧
    (run (SetWebService 20)
      (events (List.replicate 5 (hit "/a" 0 false) ++
        List.replicate 6 (hit "/b" 0 false)))).1.BusiestSection = some "/b" ∧
    (run (SetWebService 20)
      (events (List.replicate 5 (hit "/a" 0 false) ++
        List.replicate 5 (hit "/b" 0 false) ++ [hit "/a" 0 false]))).1.BusiestSection
      = some "/a" ∧
    (run (SetWebService 20)
      (events [hit "/a" 0 false, hit "/b" 0 false, hit "/a" 0 false, hit "/b" 0 false,
        hit "/a" 0 false, hit "/b" 0 false, hit "/a" 0 false, hit "/b" 0 false,
        hit "/a" 0 false, hit "/b" 0 false])).1.BusiestSection = some "/a" := by
  obtain ⟨st, h1, -, -, -, h4, -⟩ := BusiestSection_tie_break
    (run (SetWebService 20)
      (events (List.replicate 5 (hit "/a" 0 false) ++
        List.replicate 4 (hit "/b" 0 false)))).1
    (hit "/b" 0 false) "/a" (by decide) (by decide)
  have hst : st.HitCount = 5 := by
    have h : lookupSection "/b" (HandleEvents (hit "/b" 0 false) (run (SetWebService 20)
        (events (List.replicate 5 (hit "/a" 0 false) ++
          List.replicate 4 (hit "/b" 0 false)))).1).Sections =
        some { Name := "/b", HitCount := 5, BytesTransferred := 0, ErrorCount := 0 } := by
      decide
    have h' := h1.symm.trans h
    simp only [Option.some.injEq] at h'
    rw [h']
  have hfive : busiestHitCount "/a" (run (SetWebService 20)
      (events (List.replicate 5 (hit "/a" 0 false) ++
        List.replicate 4 (hit "/b" 0 false)))).1.Sections = 5 := by decide
  refine ⟨by decide, hfive, ⟨st, h1, hst⟩, ?_, by decide, by decide, by decide⟩
  have := h4 (hst.trans hfive.symm)
  exact this

/-! ## Hit counts per window -/

theorem sumHitCount_storeSection (n : String) (sec old : Section)
    (S : List (String × Section)) (h : lookupSection n S = some old) :
    sumHitCount (storeSection n sec S) = sumHitCount S - old.HitCount + sec.HitCount := by
  induction S with
  | nil => simp [lookupSection] at h
  | cons x S ih =>
    obtain ⟨k', s'⟩ := x
    simp only [lookupSection] at h
    by_cases hk : k' = n
    · simp only [hk, if_true, Option.some.injEq] at h
      subst h
      simp only [storeSection, hk, if_true, sumHitCount, List.map_cons, List.sum_cons]
      omega
    · simp only [hk, if_false] at h
      have := ih h
      simp only [storeSection, hk, if_false, sumHitCount, List.map_cons, List.sum_cons] at this ⊢
      omega

theorem sumHitCount_foldSection (e : Event) (S : List (String × Section)) :
    sumHitCount (foldSection e S).1 = sumHitCount S + 1 := by
  unfold foldSection
  cases h : lookupSection e.SectionName S with
  | some old =>
    simp only
    rw [sumHitCount_storeSection _ _ old S h]
    simp only
    omega
  | none =>
    simp [sumHitCount]

theorem sumHitCount_resetSections (S : List (String × Section)) :
    sumHitCount (resetSections S) = 0 := by
  induction S with
  | nil => rfl
  | cons x S ih =>
    obtain ⟨k', s'⟩ := x
    simp only [sumHitCount, resetSections, List.map_cons, List.sum_cons] at ih ⊢
    omega

theorem hit_counts_run (hitLimit : Int) (steps : List Step) :
    sumHitCount (run (SetWebService hitLimit) steps).1.Sections =
      ((eventsSinceReport steps).length : Int) ∧
    (run (SetWebService hitLimit) steps).1.HitCount =
      ((eventsSinceTraffic steps).length : Int) := by
  induction steps using List.reverseRecOn with
  | nil => simp [run, runFrom, SetWebService, eventsSinceReport, eventsSinceTraffic, sumHitCount]
  | append_singleton xs x ih =>
    obtain ⟨ih1, ih2⟩ := ih
    rw [run_snoc, eventsSinceReport_snoc, eventsSinceTraffic_snoc]
    cases x with
    | event e =>
      simp only [step, HandleEvents, List.length_append, List.length_singleton]
      rw [sumHitCount_foldSection, ih1, ih2]
      constructor <;> push_cast <;> rfl
    | report t =>
      simp only [step, PrintPeriodicStats, List.length_nil]
      rw [sumHitCount_resetSections, ih2]
      constructor <;> rfl
    | traffic t =>
      simp only [step]
      unfold WatchTraffic
      split <;> simp [ih1]

/-- C5, as stated, fails.  After one event and a reporting tick the sections
sum to zero hits while the global hit counter still reads one; after one event
and a traffic tick it is the other way round. -/
theorem hit_sum_differs_after_tick :
    sumHitCount (run (SetWebService 20)
        [Step.event (hit "/a" 0 false), Step.report 1]).1.Sections = 0 ∧
    (run (SetWebService 20) [Step.event (hit "/a" 0 false), Step.report 1]).1.HitCount = 1 ∧
    sumHitCount (run (SetWebService 20)
        [Step.event (hit "/a" 0 false), Step.traffic 1]).1.Sections = 1 ∧
    (run (SetWebService 20) [Step.event (hit "/a" 0 false), Step.traffic 1]).1.HitCount = 0 := by
  decide

/-- C5, amended.  In every state reached from the initial state by any
interleaving of event steps, reporting ticks and traffic ticks, the sum of
`HitCount` over all sections is the number of events folded since the last
reporting tick and `WEB_SERVICE.HitCount` is the number of events folded since
the last traffic tick; the two are equal whenever as many events were folded
since the one tick as since the other, in particular when no tick has fired. -/
theorem hit_sum_by_window (hitLimit : Int) (steps : List Step) :
    sumHitCount (run (SetWebService hitLimit) steps).1.Sections =
      ((eventsSinceReport steps).length : Int) ∧
    (run (SetWebService hitLimit) steps).1.HitCount =
      ((eventsSinceTraffic steps).length : Int) ∧
    ((eventsSinceReport steps).length = (eventsSinceTraffic steps).length →
      sumHitCount (run (SetWebService hitLimit) steps).1.Sections =
        (run (SetWebService hitLimit) steps).1.HitCount) ∧
    (∀ es : List Event,
      sumHitCount (run (SetWebService hitLimit) (events es)).1.Sections =
        (run (SetWebService hitLimit) (events es)).1.HitCount) := by
  obtain ⟨h1, h2⟩ := hit_counts_run hitLimit steps
  refine ⟨h1, h2, ?_, ?_⟩
  · intro h
    rw [h1, h2, h]
  · intro es
    obtain ⟨e1, e2⟩ := hit_counts_run hitLimit (events es)
    rw [e1, e2]
    rw [eventsSinceReport_events, eventsSinceTraffic_events]

/-- An instance: an event, a reporting tick and another event leave the sections
with one hit in all and the global counter at two. -/
theorem hit_sum_by_window_witness :
    sumHitCount (run (SetWebService 20)
        [Step.event (hit "/a" 0 false), Step.report 1, Step.event (hit "/b" 0 false)]).1.Sections
      = 1 ∧
    (run (SetWebService 20)
        [Step.event (hit "/a" 0 false), Step.report 1, Step.event (hit "/b" 0 false)]).1.HitCount
      = 2 :=
  ⟨(hit_sum_by_window 20
      [Step.event (hit "/a" 0 false), Step.report 1, Step.event (hit "/b" 0 false)]).1,
   (hit_sum_by_window 20
      [Step.event (hit "/a" 0 false), Step.report 1, Step.event (hit "/b" 0 false)]).2.1⟩

/-! ## The reporting reset -/

theorem resetSections_idem (S : List (String × Section)) :
    resetSections (resetSections S) = resetSections S := by
  induction S with
  | nil => rfl
  | cons x S ih =>
    obtain ⟨k', s'⟩ := x
    simp [resetSections, ih]

/-- C6, as stated, fails.  After three events a reporting tick leaves the
global hit counter at three. -/
theorem report_keeps_global_HitCount :
    (PrintPeriodicStats 1 (run (SetWebService 20)
      (events (List.replicate 3 (hit "/a" 10 true)))).1).1.HitCount = 3 ∧
    (PrintPeriodicStats 2 (PrintPeriodicStats 1 (run (SetWebService 20)
      (events (List.replicate 3 (hit "/a" 10 true)))).1).1).1.HitCount = 3 := by
  decide

/-- C6, amended.  After one `PrintPeriodicStats` tick, from any state, the
global byte and error counters are zero, `BusiestSection` is `nil` and every
section of the map has hit count, byte count and error count zero, while the
global hit counter is what it was before the tick; a second tick with no event
in between leaves that state as it is and prints that there was no activity. -/
theorem PrintPeriodicStats_resets (ws : WebService) (t t' : Time) :
    (PrintPeriodicStats t ws).1.BytesTransferred = 0 ∧
    (PrintPeriodicStats t ws).1.ErrorCount = 0 ∧
    (PrintPeriodicStats t ws).1.BusiestSection = none ∧
    (∀ k sec, (k, sec) ∈ (PrintPeriodicStats t ws).1.Sections →
      sec.HitCount = 0 ∧ sec.BytesTransferred = 0 ∧ sec.ErrorCount = 0) ∧
    (PrintPeriodicStats t ws).1.Sections.map Prod.fst = ws.Sections.map Prod.fst ∧
    (PrintPeriodicStats t ws).1.HitCount = ws.HitCount ∧
    (PrintPeriodicStats t' (PrintPeriodicStats t ws).1).1 = (PrintPeriodicStats t ws).1 ∧
    (PrintPeriodicStats t' (PrintPeriodicStats t ws).1).2 = [Output.noActivity t'] := by
  refine ⟨rfl, rfl, rfl, ?_, ?_, rfl, ?_, rfl⟩
  · intro k sec h
    exact mem_resetSections h
  · exact keys_resetSections ws.Sections
  · simp [PrintPeriodicStats, resetSections_idem]

/-! ## Folding one event -/

theorem keys_foldSection (e : Event) (S : List (String × Section)) :
    (foldSection e S).1.map Prod.fst =
      match lookupSection e.SectionName S with
      | some _ => S.map Prod.fst
      | none => S.map Prod.fst ++ [e.SectionName] := by
  unfold foldSection
  cases h : lookupSection e.SectionName S with
  | some old => simp only; exact keys_storeSection _ _ S
  | none => simp

set_option maxRecDepth 100000 in
/-- C8, as stated, fails.  A first event for "/a" with the largest byte count
an `int` holds, which the parser accepts, and a second one with 4096 bytes
leave the section and the global counter at -9223372036854771713 bytes, not at
the 9223372036854779903 that an increase by 4096 would give. -/
theorem HandleEvents_bytes_wrap :
    parseByteCount "9223372036854775807" = some 9223372036854775807 ∧
    (HandleEvents (hit "/a" 9223372036854775807 false)
      (SetWebService 20)).BytesTransferred = 9223372036854775807 ∧
    (HandleEvents (hit "/a" 4096 false)
      (HandleEvents (hit "/a" 9223372036854775807 false)
        (SetWebService 20))).BytesTransferred = -9223372036854771713 ∧
    lookupSection "/a" (HandleEvents (hit "/a" 4096 false)
      (HandleEvents (hit "/a" 9223372036854775807 false) (SetWebService 20))).Sections =
      some { Name := "/a", HitCount := 2, BytesTransferred := -9223372036854771713,
             ErrorCount := 0 } ∧
    (HandleEvents (hit "/a" 4096 false)
      (HandleEvents (hit "/a" 9223372036854775807 false)
        (SetWebService 20))).BytesTransferred ≠
      (HandleEvents (hit "/a" 9223372036854775807 false)
        (SetWebService 20)).BytesTransferred + 4096 := by
  decide

/-- C8, amended.  After `HandleEvents` folds an event `e`, from any state: the
map has a section under `e.SectionName` whose hit count is one more than
before, whose byte count is the old one plus `e.Bytes` reduced to 64 bits, as
Go's `+=` leaves it, and whose error count grew by one exactly when `e.IsError`
(a section that did not exist is created with name `e.SectionName`, hit count
1, byte count `e.Bytes` and error count 1 or 0); the global hit count grew by
one, the global byte count is the old one plus `e.Bytes` reduced to 64 bits,
and the global error count grew by one exactly when `e.IsError`; a byte count
grew by `e.Bytes` whenever the sum lies within the range of a 64-bit `int`;
every other section reads as before, and every key of the map is still a key,
in the same place. -/
theorem HandleEvents_counts (ws : WebService) (e : Event) :
    (∀ sec, lookupSection e.SectionName ws.Sections = some sec →
      lookupSection e.SectionName (HandleEvents e ws).Sections =
        some { Name := sec.Name
               HitCount := sec.HitCount + 1
               BytesTransferred := toInt64 (sec.BytesTransferred + e.Bytes)
               ErrorCount := sec.ErrorCount + (if e.IsError then 1 else 0) } ∧
      (-(2 : Int) ^ 63 ≤ sec.BytesTransferred + e.Bytes →
        sec.BytesTransferred + e.Bytes < (2 : Int) ^ 63 →
        lookupSection e.SectionName (HandleEvents e ws).Sections =
          some { Name := sec.Name
                 HitCount := sec.HitCount + 1
                 BytesTransferred := sec.BytesTransferred + e.Bytes
                 ErrorCount := sec.ErrorCount + (if e.IsError then 1 else 0) }) ∧
      (HandleEvents e ws).Sections.map Prod.fst = ws.Sections.map Prod.fst) ∧
    (lookupSection e.SectionName ws.Sections = none →
      lookupSection e.SectionName (HandleEvents e ws).Sections =
        some { Name := e.SectionName
               HitCount := 1
               BytesTransferred := e.Bytes
               ErrorCount := if e.IsError then 1 else 0 } ∧
      (HandleEvents e ws).Sections.map Prod.fst = ws.Sections.map Prod.fst ++ [e.SectionName]) ∧
    (HandleEvents e ws).HitCount = ws.HitCount + 1 ∧
    (HandleEvents e ws).BytesTransferred = toInt64 (ws.BytesTransferred + e.Bytes) ∧
    (-(2 : Int) ^ 63 ≤ ws.BytesTransferred + e.Bytes →
      ws.BytesTransferred + e.Bytes < (2 : Int) ^ 63 →
      (HandleEvents e ws).BytesTransferred = ws.BytesTransferred + e.Bytes) ∧
    (HandleEvents e ws).ErrorCount = ws.ErrorCount + (if e.IsError then 1 else 0) ∧
    (∀ k, k ≠ e.SectionName →
      lookupSection k (HandleEvents e ws).Sections = lookupSection k ws.Sections) ∧
    (∀ k, k ∈ ws.Sections.map Prod.fst → k ∈ (HandleEvents e ws).Sections.map Prod.fst) ∧
    (∀ k, (lookupSection k ws.Sections).isSome = true →
      (lookupSection k (HandleEvents e ws).Sections).isSome = true) := by
  have hlk := fun k => lookupSection_foldSection k e ws.Sections
  have hkeys := keys_foldSection e ws.Sections
  have hsec : ∀ sec, lookupSection e.SectionName ws.Sections = some sec →
      lookupSection e.SectionName (HandleEvents e ws).Sections =
        some { Name := sec.Name
               HitCount := sec.HitCount + 1
               BytesTransferred := toInt64 (sec.BytesTransferred + e.Bytes)
               ErrorCount := sec.ErrorCount + (if e.IsError then 1 else 0) } := by
    intro sec h
    simp only [HandleEvents]
    rw [hlk]
    simp only [if_true, foldSection, h, Option.some.injEq, Section.mk.injEq, true_and]
    cases e.IsError <;> simp
  refine ⟨?_, ?_, rfl, rfl, ?_, ?_, ?_, ?_, ?_⟩
  · intro sec h
    refine ⟨hsec sec h, ?_, ?_⟩
    · intro h1 h2
      rw [hsec sec h, toInt64_of_range _ h1 h2]
    · simp only [HandleEvents]
      rw [hkeys, h]
  · intro h
    constructor
    · simp only [HandleEvents]
      rw [hlk]
      simp only [if_true, foldSection, h, Option.some.injEq, Section.mk.injEq, true_and]
      cases e.IsError <;> simp
    · simp only [HandleEvents]
      rw [hkeys, h]
  · intro h1 h2
    show toInt64 (ws.BytesTransferred + e.Bytes) = ws.BytesTransferred + e.Bytes
    exact toInt64_of_range _ h1 h2
  · simp only [HandleEvents]
    cases e.IsError <;> simp
  · intro k hk
    simp only [HandleEvents]
    rw [hlk, if_neg hk]
  · intro k hk
    simp only [HandleEvents]
    rw [hkeys]
    cases lookupSection e.SectionName ws.Sections with
    | some _ => exact hk
    | none => exact List.mem_append_left _ hk
  · intro k hk
    simp only [HandleEvents]
    rw [hlk]
    by_cases h : k = e.SectionName
    · simp [h]
    · simpa [h] using hk

set_option maxRecDepth 100000 in
/-- An instance: a second event for "/a", with 500 bytes and the error flag,
after a first one with 700 bytes. -/
theorem HandleEvents_counts_witness :
    lookupSection "/a" (HandleEvents (hit "/a" 500 true)
        (HandleEvents (hit "/a" 700 false) (SetWebService 20))).Sections =
      some { Name := "/a", HitCount := 2, BytesTransferred := 1200, ErrorCount := 1 } ∧
    (HandleEvents (hit "/a" 500 true)
        (HandleEvents (hit "/a" 700 false) (SetWebService 20))).HitCount = 2 :=
  ⟨((HandleEvents_counts (HandleEvents (hit "/a" 700 false) (SetWebService 20))
      (hit "/a" 500 true)).1
        { Name := "/a", HitCount := 1, BytesTransferred := 700, ErrorCount := 0 }
        (by decide)).2.1 (by decide) (by decide),
   (HandleEvents_counts (HandleEvents (hit "/a" 700 false) (SetWebService 20))
      (hit "/a" 500 true)).2.2.1⟩

/-! ## Independence of the two windows -/

/-- C9. A `PrintPeriodicStats` tick leaves the traffic-window state (the
global hit count, the alert flag, the limit) as it was, and a `WatchTraffic`
tick leaves the reporting-window state (the global byte and error counts, the
map with every section's counters, the busiest section) as it was. -/
theorem ticks_frame (ws : WebService) (t : Time) :
    (PrintPeriodicStats t ws).1.HitCount = ws.HitCount ∧
    (PrintPeriodicStats t ws).1.HighTraffic = ws.HighTraffic ∧
    (PrintPeriodicStats t ws).1.HitLimit = ws.HitLimit ∧
    (WatchTraffic t ws).1.BytesTransferred = ws.BytesTransferred ∧
    (WatchTraffic t ws).1.ErrorCount = ws.ErrorCount ∧
    (WatchTraffic t ws).1.Sections = ws.Sections ∧
    (WatchTraffic t ws).1.BusiestSection = ws.BusiestSection := by
  refine ⟨rfl, rfl, rfl, ?_, ?_, ?_, ?_⟩ <;>
    (unfold WatchTraffic; split <;> rfl)

/-! ## The periodic summary -/

theorem hitsOf_snoc (k : String) (w : List Event) (e : Event) :
    hitsOf k (w ++ [e]) = hitsOf k w + (if e.SectionName = k then 1 else 0) := by
  unfold hitsOf
  by_cases h : e.SectionName = k
  · simp [List.filter_append, h]
  · simp [List.filter_append, h]

theorem hitsOf_eq_zero (k : String) (w : List Event) (h : ∀ e ∈ w, e.SectionName ≠ k) :
    hitsOf k w = 0 := by
  unfold hitsOf
  have : w.filter (fun e => e.SectionName = k) = [] := by
    rw [List.filter_eq_nil_iff]
    intro e he
    simpa using h e he
  rw [this]; rfl

theorem bytesOf_snoc (w : List Event) (e : Event) : bytesOf (w ++ [e]) = bytesOf w + e.Bytes := by
  simp [bytesOf]

theorem errorsOf_snoc (w : List Event) (e : Event) :
    errorsOf (w ++ [e]) = errorsOf w + (if e.IsError then 1 else 0) := by
  unfold errorsOf
  cases h : e.IsError <;> simp [List.filter_append, h]

theorem WindowOK_SetWebService (hitLimit : Int) : WindowOK (SetWebService hitLimit) [] := by
  refine ⟨?_, ?_, rfl, rfl, fun _ => rfl, fun h => absurd rfl h⟩
  · intro k sec h
    simp [SetWebService, lookupSection] at h
  · intro e he
    simp at he

theorem WindowOK_PrintPeriodicStats (t : Time) (ws : WebService) (w : List Event)
    (h : WindowOK ws w) : WindowOK (PrintPeriodicStats t ws).1 [] := by
  obtain ⟨h1, -⟩ := h
  refine ⟨?_, ?_, rfl, rfl, fun _ => rfl, fun h => absurd rfl h⟩
  · intro k sec hl
    simp only [PrintPeriodicStats] at hl
    rw [lookupSection_resetSections] at hl
    cases hk : lookupSection k ws.Sections with
    | none => simp [hk] at hl
    | some old =>
      simp only [hk, Option.map_some', Option.some.injEq] at hl
      subst hl
      exact ⟨(h1 k old hk).1, rfl⟩
  · intro e he
    simp at he

theorem WindowOK_WatchTraffic (t : Time) (ws : WebService) (w : List Event)
    (h : WindowOK ws w) : WindowOK (WatchTraffic t ws).1 w := by
  unfold WatchTraffic
  split <;> exact h

theorem WindowOK_HandleEvents (e : Event) (ws : WebService) (w : List Event)
    (h : WindowOK ws w) : WindowOK (HandleEvents e ws) (w ++ [e]) := by
  obtain ⟨h1, h2, h3, h4, h5, h6⟩ := h
  have hlk := fun k => lookupSection_foldSection k e ws.Sections
  -- the section the event went to
  have hnew : (foldSection e ws.Sections).2.Name = e.SectionName ∧
      (foldSection e ws.Sections).2.HitCount = hitsOf e.SectionName (w ++ [e]) := by
    rw [hitsOf_snoc, if_pos rfl]
    unfold foldSection
    cases hl : lookupSection e.SectionName ws.Sections with
    | some old =>
      obtain ⟨a, b⟩ := h1 _ old hl
      exact ⟨a, by simp only [b]⟩
    | none =>
      have hz : hitsOf e.SectionName w = 0 := by
        apply hitsOf_eq_zero
        intro e' he' heq
        obtain ⟨sec, hs⟩ := h2 e' he'
        rw [heq, hl] at hs
        cases hs
      exact ⟨rfl, by simp only [hz]; rfl⟩
  have g1 : ∀ k sec, lookupSection k (foldSection e ws.Sections).1 = some sec →
      sec.Name = k ∧ sec.HitCount = hitsOf k (w ++ [e]) := by
    intro k sec hl
    rw [hlk] at hl
    by_cases hk : k = e.SectionName
    · rw [if_pos hk, Option.some.injEq] at hl
      subst hl
      rw [hk]
      exact hnew
    · rw [if_neg hk] at hl
      obtain ⟨a, b⟩ := h1 k sec hl
      refine ⟨a, ?_⟩
      rw [hitsOf_snoc, if_neg (fun c => hk c.symm), b]
      omega
  have g2 : ∀ e' ∈ w ++ [e], ∃ sec,
      lookupSection e'.SectionName (foldSection e ws.Sections).1 = some sec := by
    intro e' he'
    rw [hlk]
    by_cases hk : e'.SectionName = e.SectionName
    · exact ⟨_, if_pos hk⟩
    · rw [if_neg hk]
      rcases List.mem_append.1 he' with hm | hm
      · exact h2 e' hm
      · simp only [List.mem_singleton] at hm
        exact absurd (by rw [hm]) hk
  have hcount : ∀ b, (∃ e' ∈ w ++ [e], e'.SectionName = b) →
      busiestHitCount b (foldSection e ws.Sections).1 = hitsOf b (w ++ [e]) := by
    intro b ⟨e', he', hb⟩
    obtain ⟨sec, hs⟩ := g2 e' he'
    rw [hb] at hs
    unfold busiestHitCount
    rw [hs]
    exact (g1 b sec hs).2
  refine ⟨g1, g2, ?_, ?_, ?_, ?_⟩
  · simp only [HandleEvents]; rw [h3, bytesOf_snoc, toInt64_add_toInt64]
  · simp only [HandleEvents]; rw [h4, errorsOf_snoc]
    cases e.IsError <;> simp
  · intro hw
    simp at hw
  · intro _
    by_cases hw : w = []
    · refine ⟨e.SectionName, ?_, ⟨e, by simp, rfl⟩, ?_⟩
      · simp [HandleEvents, h5 hw]
      · intro m
        subst hw
        rw [hitsOf_snoc, hitsOf_snoc, if_pos rfl]
        simp only [hitsOf, List.filter_nil, List.length_nil]
        split <;> decide
    · obtain ⟨b, hb, ⟨eb, heb, hname⟩, hmax⟩ := h6 hw
      have hbc := hcount b ⟨eb, List.mem_append_left _ heb, hname⟩
      have hother : ∀ m, m ≠ e.SectionName → hitsOf m (w ++ [e]) = hitsOf m w := by
        intro m hm
        rw [hitsOf_snoc, if_neg (fun c => hm c.symm)]
        omega
      have hmono : hitsOf b w ≤ hitsOf b (w ++ [e]) := by
        rw [hitsOf_snoc]; split <;> omega
      by_cases hc : e.SectionName ≠ b ∧
          (foldSection e ws.Sections).2.HitCount >
            busiestHitCount b (foldSection e ws.Sections).1
      · refine ⟨e.SectionName, ?_, ⟨e, by simp, rfl⟩, ?_⟩
        · simp only [HandleEvents, hb]
          rw [if_pos hc]
        · intro m
          obtain ⟨hne, hgt⟩ := hc
          rw [hnew.2, hbc] at hgt
          by_cases hm : m = e.SectionName
          · rw [hm]
          · rw [hother m hm]
            have := hmax m
            omega
      · refine ⟨b, ?_, ⟨eb, List.mem_append_left _ heb, hname⟩, ?_⟩
        · simp only [HandleEvents, hb]
          rw [if_neg hc]
        · intro m
          by_cases hm : m = e.SectionName
          · by_cases hbe : e.SectionName = b
            · rw [hm, hbe]
            · have hngt : ¬ (foldSection e ws.Sections).2.HitCount >
                  busiestHitCount b (foldSection e ws.Sections).1 := fun c => hc ⟨hbe, c⟩
              rw [hnew.2, hbc] at hngt
              rw [hm]
              omega
          · rw [hother m hm]
            have := hmax m
            omega

theorem WindowOK_run (hitLimit : Int) (steps : List Step) :
    WindowOK (run (SetWebService hitLimit) steps).1 (eventsSinceReport steps) := by
  induction steps using List.reverseRecOn with
  | nil => exact WindowOK_SetWebService hitLimit
  | append_singleton xs x ih =>
    rw [run_snoc, eventsSinceReport_snoc]
    cases x with
    | event e => exact WindowOK_HandleEvents e _ _ ih
    | report t => exact WindowOK_PrintPeriodicStats t _ _ ih
    | traffic t => exact WindowOK_WatchTraffic t _ _ ih

theorem WindowOK_printed (t : Time) (ws : WebService) (w : List Event) (h : WindowOK ws w) :
    (w = [] → (PrintPeriodicStats t ws).2 = [Output.noActivity t]) ∧
    (w ≠ [] → ∃ b, (∃ e ∈ w, e.SectionName = b) ∧ (∀ m, hitsOf m w ≤ hitsOf b w) ∧
      (PrintPeriodicStats t ws).2 =
        [Output.summary t (Int.tdiv (toInt64 (bytesOf w)) 1024) (errorsOf w) b
          (hitsOf b w)]) := by
  obtain ⟨h1, h2, h3, h4, h5, h6⟩ := h
  constructor
  · intro hw
    simp [PrintPeriodicStats, h5 hw]
  · intro hw
    obtain ⟨b, hb, ⟨eb, heb, hname⟩, hmax⟩ := h6 hw
    obtain ⟨sec, hs⟩ := h2 eb heb
    rw [hname] at hs
    obtain ⟨hn, hc⟩ := h1 b sec hs
    refine ⟨b, ⟨eb, heb, hname⟩, hmax, ?_⟩
    simp only [PrintPeriodicStats, hb, busiestName, busiestHitCount, hs, h3, h4, hn, hc]

set_option maxRecDepth 100000 in
/-- C7, as stated, fails.  Two events for "/a", one with the largest byte
count an `int` holds, which the parser accepts, and one with 4096 bytes, sum to
9223372036854779903 bytes, which is 9007199254740995 KB; the reporter prints
-9007199254740988 KB. -/
theorem PrintPeriodicStats_bytes_wrap :
    parseByteCount "9223372036854775807" = some 9223372036854775807 ∧
    (PrintPeriodicStats 1 (run (SetWebService 20)
      (events [hit "/a" 9223372036854775807 false, hit "/a" 4096 false])).1).2 =
      [Output.summary 1 (-9007199254740988) 0 "/a" 2] ∧
    Int.tdiv (bytesOf [hit "/a" 9223372036854775807 false, hit "/a" 4096 false]) 1024 =
      9007199254740995 := by
  decide

/-- C7, amended.  When a sequence of events `es` is folded after a reporting
tick (or from the initial state), the next `PrintPeriodicStats` tick prints the
no-activity line exactly when `es` is empty; otherwise it prints one summary
with the sum of the byte counts of `es`, reduced to 64 bits as Go's `+=` leaves
it, divided by 1024 and truncated, the number of events of `es` with the error
flag, and the name and hit count of a section that has the most events in
`es`.  When the sum of the byte counts lies within the range of a 64-bit `int`,
the kilobytes are that sum divided by 1024 and truncated. -/
theorem PrintPeriodicStats_summary (hitLimit : Int) (pre : List Step) (es : List Event)
    (t : Time) (hpre : eventsSinceReport pre = []) :
    ((PrintPeriodicStats t (run (SetWebService hitLimit) (pre ++ events es)).1).2 =
        [Output.noActivity t] ↔ es = []) ∧
    (es ≠ [] → ∃ b, (∃ e ∈ es, e.SectionName = b) ∧ (∀ m, hitsOf m es ≤ hitsOf b es) ∧
      (PrintPeriodicStats t (run (SetWebService hitLimit) (pre ++ events es)).1).2 =
        [Output.summary t (Int.tdiv (toInt64 (bytesOf es)) 1024) (errorsOf es) b
          (hitsOf b es)]) ∧
    (es ≠ [] → -(2 : Int) ^ 63 ≤ bytesOf es → bytesOf es < (2 : Int) ^ 63 →
      ∃ b, (∃ e ∈ es, e.SectionName = b) ∧ (∀ m, hitsOf m es ≤ hitsOf b es) ∧
        (PrintPeriodicStats t (run (SetWebService hitLimit) (pre ++ events es)).1).2 =
          [Output.summary t (Int.tdiv (bytesOf es) 1024) (errorsOf es) b (hitsOf b es)]) := by
  have hinv := WindowOK_run hitLimit (pre ++ events es)
  rw [eventsSinceReport_append_events, hpre, List.nil_append] at hinv
  obtain ⟨p1, p2⟩ := WindowOK_printed t _ es hinv
  refine ⟨⟨?_, p1⟩, p2, ?_⟩
  · intro hout
    by_contra hne
    obtain ⟨b, -, -, hsum⟩ := p2 hne
    rw [hsum] at hout
    simp at hout
  · intro hne h1 h2
    obtain ⟨b, hb, hmax, hsum⟩ := p2 hne
    rw [toInt64_of_range _ h1 h2] at hsum
    exact ⟨b, hb, hmax, hsum⟩

set_option maxRecDepth 100000 in
/-- An instance: after a reporting tick, three events for "/a" (one with the
error flag) and five for "/b", of 1000 bytes each, are reported as 7 KB, one
error and top section "/b" with 5 hits; with no event the tick reports no
activity. -/
theorem PrintPeriodicStats_summary_witness :
    eventsSinceReport [Step.event (hit "/c" 4096 true), Step.report 1, Step.traffic 2] = [] ∧
    (∃ b, (∃ e ∈ [hit "/a" 1000 false, hit "/b" 1000 false, hit "/a" 1000 true,
          hit "/b" 1000 false, hit "/b" 1000 false, hit "/a" 1000 false,
          hit "/b" 1000 false, hit "/b" 1000 false], e.SectionName = b) ∧
      (PrintPeriodicStats 9 (run (SetWebService 20)
        ([Step.event (hit "/c" 4096 true), Step.report 1, Step.traffic 2] ++
          events [hit "/a" 1000 false, hit "/b" 1000 false, hit "/a" 1000 true,
            hit "/b" 1000 false, hit "/b" 1000 false, hit "/a" 1000 false,
            hit "/b" 1000 false, hit "/b" 1000 false])).1).2 =
        [Output.summary 9
          (Int.tdiv (bytesOf [hit "/a" 1000 false, hit "/b" 1000 false, hit "/a" 1000 true,
            hit "/b" 1000 false, hit "/b" 1000 false, hit "/a" 1000 false,
            hit "/b" 1000 false, hit "/b" 1000 false]) 1024)
          (errorsOf [hit "/a" 1000 false, hit "/b" 1000 false, hit "/a" 1000 true,
            hit "/b" 1000 false, hit "/b" 1000 false, hit "/a" 1000 false,
            hit "/b" 1000 false, hit "/b" 1000 false])
          b
          (hitsOf b [hit "/a" 1000 false, hit "/b" 1000 false, hit "/a" 1000 true,
            hit "/b" 1000 false, hit "/b" 1000 false, hit "/a" 1000 false,
            hit "/b" 1000 false, hit "/b" 1000 false])]) ∧
    (PrintPeriodicStats 9 (run (SetWebService 20)
        ([Step.event (hit "/c" 4096 true), Step.report 1, Step.traffic 2] ++
          events [hit "/a" 1000 false, hit "/b" 1000 false, hit "/a" 1000 true,
            hit "/b" 1000 false, hit "/b" 1000 false, hit "/a" 1000 false,
            hit "/b" 1000 false, hit "/b" 1000 false])).1).2 =
      [Output.summary 9 7 1 "/b" 5] ∧
    (PrintPeriodicStats 9 (run (SetWebService 20) []).1).2 = [Output.noActivity 9] := by
  obtain ⟨b, hb, -, hout⟩ := (PrintPeriodicStats_summary 20
    [Step.event (hit "/c" 4096 true), Step.report 1, Step.traffic 2]
    [hit "/a" 1000 false, hit "/b" 1000 false, hit "/a" 1000 true,
      hit "/b" 1000 false, hit "/b" 1000 false, hit "/a" 1000 false,
      hit "/b" 1000 false, hit "/b" 1000 false] 9 (by decide)).2.2 (by simp)
      (by decide) (by decide)
  exact ⟨by decide, ⟨b, hb, hout⟩, by decide, by decide⟩

/-! ## The file tailer -/

theorem readString_spec (buf : List Byte) :
    (newline ∉ buf ∧ readString buf = (buf, [], true)) ∨
    (∃ pre rest, newline ∉ pre ∧ buf = pre ++ newline :: rest ∧
      readString buf = (pre ++ [newline], rest, false)) := by
  induction buf with
  | nil => left; simp [readString]
  | cons b buf ih =>
    by_cases hb : b = newline
    · right
      refine ⟨[], buf, by simp, by simp [hb], ?_⟩
      simp [readString, hb]
    · rcases ih with ⟨h1, h2⟩ | ⟨pre, rest, h1, h2, h3⟩
      · left
        refine ⟨?_, ?_⟩
        · simp only [List.mem_cons, not_or]
          exact ⟨fun c => hb c.symm, h1⟩
        · simp [readString, hb, h2]
      · right
        refine ⟨b :: pre, rest, ?_, ?_, ?_⟩
        · simp only [List.mem_cons, not_or]
          exact ⟨fun c => hb c.symm, h1⟩
        · rw [h2]; simp
        · simp [readString, hb, h3]

theorem lines_induction {P : List Byte → Prop}
    (h0 : ∀ X, newline ∉ X → P X)
    (h1 : ∀ pre rest, newline ∉ pre → P rest → P (pre ++ newline :: rest)) :
    ∀ X, P X := by
  have key : ∀ n (X : List Byte), X.length = n → P X := by
    intro n
    induction n using Nat.strong_induction_on with
    | _ n ih =>
      intro X hn
      rcases readString_spec X with ⟨h, -⟩ | ⟨pre, rest, hp, hX, -⟩
      · exact h0 X h
      · rw [hX]
        apply h1 pre rest hp
        apply ih rest.length _ rest rfl
        rw [← hn, hX]
        simp only [List.length_append, List.length_cons]
        omega
  exact fun X => key X.length X rfl

theorem split_noNewline (X : List Byte) (h : newline ∉ X) :
    terminatedLines X = [] ∧ trailingFragment X = X := by
  have : X.splitOn newline = [X] := by
    apply List.splitOnP_eq_single
    intro x hx hc
    simp only [beq_iff_eq] at hc
    exact h (hc ▸ hx)
  simp [terminatedLines, trailingFragment, this]

theorem split_first (pre rest : List Byte) (h : newline ∉ pre) :
    terminatedLines (pre ++ newline :: rest) = pre :: terminatedLines rest ∧
    trailingFragment (pre ++ newline :: rest) = trailingFragment rest := by
  have hs : (pre ++ newline :: rest).splitOn newline = pre :: rest.splitOn newline := by
    apply List.splitOnP_first
    · intro x hx hc
      simp only [beq_iff_eq] at hc
      exact h (hc ▸ hx)
    · simp
  have hne : rest.splitOn newline ≠ [] := List.splitOnP_ne_nil _ _
  constructor
  · simp only [terminatedLines, hs]
    exact List.dropLast_cons_of_ne_nil hne
  · simp only [trailingFragment, hs]
    cases hr : rest.splitOn newline with
    | nil => exact absurd hr hne
    | cons a l => simp [List.getLastD]

theorem drainBuffer_spec (fuel : Nat) (buf : List Byte) (h : buf.length < fuel) :
    drainBuffer fuel buf =
      some ((terminatedLines buf).map (· ++ [newline]), trailingFragment buf) := by
  induction fuel generalizing buf with
  | zero => omega
  | succ fuel ih =>
    rcases readString_spec buf with ⟨h1, h2⟩ | ⟨pre, rest, h1, h2, h3⟩
    · obtain ⟨a, b⟩ := split_noNewline buf h1
      simp [drainBuffer, h2, a, b]
    · have hlen : rest.length < fuel := by
        rw [h2] at h
        simp at h
        omega
      obtain ⟨a, b⟩ := split_first pre rest h1
      rw [← h2] at a b
      simp [drainBuffer, h3, ih rest hlen, a, b]

theorem split_append (X Y : List Byte) :
    terminatedLines (X ++ Y) = terminatedLines X ++ terminatedLines (trailingFragment X ++ Y) ∧
    trailingFragment (X ++ Y) = trailingFragment (trailingFragment X ++ Y) := by
  induction X using lines_induction with
  | h0 X h =>
    obtain ⟨a, b⟩ := split_noNewline X h
    simp [a, b]
  | h1 pre rest hp ih =>
    obtain ⟨a, b⟩ := split_first pre rest hp
    obtain ⟨c, d⟩ := split_first pre (rest ++ Y) hp
    rw [List.append_assoc, List.cons_append, c, d, a, b, ih.1, ih.2]
    simp

theorem trailingFragment_noNewline (X : List Byte) : newline ∉ trailingFragment X := by
  induction X using lines_induction with
  | h0 X h => rw [(split_noNewline X h).2]; exact h
  | h1 pre rest hp ih => rw [(split_first pre rest hp).2]; exact ih

theorem terminatedLines_noNewline (X : List Byte) : ∀ l ∈ terminatedLines X, newline ∉ l := by
  induction X using lines_induction with
  | h0 X h => rw [(split_noNewline X h).1]; simp
  | h1 pre rest hp ih =>
    rw [(split_first pre rest hp).1]
    intro l hl
    rcases List.mem_cons.1 hl with hl | hl
    · rw [hl]; exact hp
    · exact ih l hl

theorem lines_flatten (X : List Byte) :
    ((terminatedLines X).map (· ++ [newline])).flatten ++ trailingFragment X = X := by
  induction X using lines_induction with
  | h0 X h => simp [(split_noNewline X h).1, (split_noNewline X h).2]
  | h1 pre rest hp ih =>
    rw [(split_first pre rest hp).1, (split_first pre rest hp).2]
    simp only [List.map_cons, List.flatten_cons, List.append_assoc]
    rw [ih]
    simp

theorem watchReads_spec (chunks : List (List Byte)) (buf : List Byte) (h : newline ∉ buf) :
    watchReads buf chunks =
      some ((terminatedLines (buf ++ chunks.flatten)).map (· ++ [newline]),
        trailingFragment (buf ++ chunks.flatten)) := by
  induction chunks generalizing buf with
  | nil =>
    obtain ⟨a, b⟩ := split_noNewline buf h
    simp [watchReads, a, b]
  | cons c cs ih =>
    by_cases hc : c.length ≤ 0
    · have hc' : c = [] := by
        cases c with
        | nil => rfl
        | cons x xs => simp at hc
      subst hc'
      simp only [watchReads, WatchFile, List.length_nil, le_refl, if_true, List.flatten_cons,
        List.nil_append]
      rw [ih buf h]
      simp
    · simp only [watchReads, WatchFile, if_neg hc]
      rw [drainBuffer_spec _ _ (Nat.lt_succ_self _)]
      simp only
      rw [ih _ (trailingFragment_noNewline _)]
      obtain ⟨a, b⟩ := split_append (buf ++ c) cs.flatten
      simp only [List.flatten_cons, Option.map_some', ← List.append_assoc]
      rw [a, b]
      simp

/-- C10. Starting from an empty buffer, the read cycles of `WatchFile` over
any sequence of chunks send exactly the newline-terminated lines of the
concatenation of the chunks, in order and each with its terminator, and retain
the trailing unterminated fragment.  Stripping the terminators gives the lines
of the split at newlines; the lines sent followed by the retained fragment are
the bytes read, so nothing is lost or sent twice; two sequences of chunks with
the same concatenation send the same lines; and the lines sent after some
chunks are still the first lines sent after any further chunks. -/
theorem WatchFile_emits_lines (chunks : List (List Byte)) :
    watchReads [] chunks =
      some ((terminatedLines chunks.flatten).map (· ++ [newline]),
        trailingFragment chunks.flatten) ∧
    ((terminatedLines chunks.flatten).map (· ++ [newline])).map stripTerminator =
      terminatedLines chunks.flatten ∧
    (∀ l ∈ terminatedLines chunks.flatten, newline ∉ l) ∧
    newline ∉ trailingFragment chunks.flatten ∧
    ((terminatedLines chunks.flatten).map (· ++ [newline])).flatten ++
      trailingFragment chunks.flatten = chunks.flatten ∧
    (∀ chunks' : List (List Byte), chunks'.flatten = chunks.flatten →
      watchReads [] chunks' = watchReads [] chunks) ∧
    (∀ more : List (List Byte), ∃ later final,
      watchReads [] (chunks ++ more) =
        some ((terminatedLines chunks.flatten).map (· ++ [newline]) ++ later, final)) := by
  have hrun := fun cs : List (List Byte) => watchReads_spec cs [] (by simp)
  simp only [List.nil_append] at hrun
  refine ⟨hrun chunks, ?_, terminatedLines_noNewline _, trailingFragment_noNewline _,
    lines_flatten _, ?_, ?_⟩
  · simp [stripTerminator, Function.comp_def]
  · intro chunks' h
    rw [hrun chunks', hrun chunks, h]
  · intro more
    rw [hrun (chunks ++ more), List.flatten_append, (split_append _ _).1, List.map_append]
    exact ⟨_, _, rfl⟩

/-- An instance: two lines and a fragment read in three chunks that cut both
lines, and the same bytes read in one chunk. -/
theorem WatchFile_emits_lines_witness :
    watchReads [] [[71, 69, 84, 32], [47, 10, 80, 79], [83, 84, 10, 72]] =
      some ([[71, 69, 84, 32, 47, 10], [80, 79, 83, 84, 10]], [72]) ∧
    watchReads [] [[71, 69, 84, 32, 47, 10, 80, 79, 83, 84, 10, 72]] =
      watchReads [] [[71, 69, 84, 32], [47, 10, 80, 79], [83, 84, 10, 72]] := by
  refine ⟨?_, ?_⟩
  · rw [(WatchFile_emits_lines [[71, 69, 84, 32], [47, 10, 80, 79], [83, 84, 10, 72]]).1]
    decide
  · exact (WatchFile_emits_lines [[71, 69, 84, 32], [47, 10, 80, 79], [83, 84, 10, 72]]).2.2.2.2.2.1
      [[71, 69, 84, 32, 47, 10, 80, 79, 83, 84, 10, 72]] (by decide)

/-! ## The line parser: fields -/

theorem splitOn_head (sep : Char) (l : List Char) :
    ∃ t, l.splitOn sep = l.takeWhile (fun c => c ≠ sep) :: t := by
  induction l with
  | nil => exact ⟨[], rfl⟩
  | cons x xs ih =>
    obtain ⟨t, ht⟩ := ih
    simp only [List.splitOn] at ht ⊢
    rw [List.splitOnP_cons]
    by_cases hx : x = sep
    · simp [hx]
    · simp [hx, ht, List.modifyHead]

theorem ParseResource_some (resource : String) :
    ParseResource resource =
      some ("/" ++ String.mk ((Trim resource '/').toList.takeWhile (fun c => c ≠ '/'))) := by
  obtain ⟨t, ht⟩ := splitOn_head '/' (Trim resource '/').toList
  simp only [ParseResource, Split]
  rw [ht]
  simp

/-- C12. `ParseResource` never returns an error: for every resource it gives
`"/"` followed by the first `"/"`-separated segment of the resource stripped of
all leading and trailing `"/"`, which is the text of the stripped resource up
to its first `"/"`.  So `"/api/v1/users"` and `"api/v1"` give `"/api"`, and
`"/"` and the empty string give `"/"`. -/
theorem ParseResource_total (resource : String) :
    ParseResource resource =
      some ("/" ++ String.mk ((Trim resource '/').toList.takeWhile (fun c => c ≠ '/'))) ∧
    (∃ rest, Split (Trim resource '/') '/' =
      String.mk ((Trim resource '/').toList.takeWhile (fun c => c ≠ '/')) :: rest) ∧
    (Trim resource '/').toList.head? ≠ some '/' ∧
    ParseResource "/api/v1/users" = some "/api" ∧
    ParseResource "api/v1" = some "/api" ∧
    ParseResource "/" = some "/" ∧
    ParseResource "" = some "/" := by
  obtain ⟨t, ht⟩ := splitOn_head '/' (Trim resource '/').toList
  refine ⟨ParseResource_some resource, ⟨t.map String.mk, ?_⟩, ?_, by decide, by decide,
    by decide, by decide⟩
  · simp only [Split]
    rw [ht]
    simp
  · simp only [Trim, String.toList]
    generalize resource.data = l
    intro h
    have h1 : ∀ m : List Char, (m.dropWhile (fun c => c = '/')).head? ≠ some '/' := by
      intro m
      induction m with
      | nil => simp
      | cons x xs ih =>
        by_cases hx : x = '/'
        · simpa [List.dropWhile, hx] using ih
        · simp [List.dropWhile, hx]
    have h2 : ∀ m : List Char, m.head? ≠ some '/' →
        ((m.reverse.dropWhile (fun c => c = '/')).reverse).head? ≠ some '/' := by
      intro m hm
      induction m using List.reverseRecOn with
      | nil => simp
      | append_singleton xs x ih =>
        by_cases hx : x = '/'
        · simp only [List.reverse_append, List.reverse_cons, List.reverse_nil, List.nil_append,
            List.singleton_append, List.dropWhile, hx, decide_True]
          apply ih
          intro hc
          apply hm
          cases xs with
          | nil => simp at hc
          | cons y ys => simpa using hc
        · simpa [List.dropWhile, hx] using hm
    exact h2 _ (h1 l) h

theorem takeWhile_ne_of_not_mem (sep : Char) (s : List Char) (h : sep ∉ s) :
    s.takeWhile (fun c => c ≠ sep) = s := by
  induction s with
  | nil => rfl
  | cons x xs ih =>
    simp only [List.mem_cons, not_or] at h
    have hx : x ≠ sep := fun c => h.1 c.symm
    have e := ih h.2
    simp only [List.takeWhile, hx, ne_eq, not_false_eq_true, decide_True, List.cons.injEq,
      true_and]
    exact e

theorem cut_at_first (sep : Char) (s : List Char) (h : sep ∈ s) :
    s = s.takeWhile (fun c => c ≠ sep) ++ sep :: (s.dropWhile (fun c => c ≠ sep)).drop 1 ∧
    sep ∉ s.takeWhile (fun c => c ≠ sep) := by
  induction s with
  | nil => simp at h
  | cons x xs ih =>
    by_cases hx : x = sep
    · simp [List.takeWhile, List.dropWhile, hx]
    · have hin : sep ∈ xs := by
        rcases List.mem_cons.1 h with h | h
        · exact absurd h.symm hx
        · exact h
      obtain ⟨h1, h2⟩ := ih hin
      constructor
      · simp only [List.takeWhile, List.dropWhile, hx, ne_eq, not_false_eq_true, decide_True,
          List.cons_append, List.cons.injEq, true_and]
        exact h1
      · simp only [List.takeWhile, hx, ne_eq, not_false_eq_true, decide_True, List.mem_cons,
          not_or]
        exact ⟨fun c => hx c.symm, h2⟩

theorem splitNChars_three (sep : Char) (s : List Char) :
    (sep ∉ s ∧ splitNChars sep 3 s = [s]) ∨
    (∃ rest, sep ∉ rest ∧ s = s.takeWhile (fun c => c ≠ sep) ++ sep :: rest ∧
      splitNChars sep 3 s = [s.takeWhile (fun c => c ≠ sep), rest]) ∨
    (∃ b c, sep ∉ b ∧ s = s.takeWhile (fun c => c ≠ sep) ++ sep :: (b ++ sep :: c) ∧
      splitNChars sep 3 s = [s.takeWhile (fun c => c ≠ sep), b, c]) := by
  by_cases h : sep ∈ s
  · right
    obtain ⟨h1, -⟩ := cut_at_first sep s h
    by_cases h' : sep ∈ (s.dropWhile (fun c => c ≠ sep)).drop 1
    · right
      obtain ⟨g1, g2⟩ := cut_at_first sep _ h'
      refine ⟨((s.dropWhile (fun c => c ≠ sep)).drop 1).takeWhile (fun c => c ≠ sep),
        ((((s.dropWhile (fun c => c ≠ sep)).drop 1).dropWhile (fun c => c ≠ sep)).drop 1),
        g2, ?_, ?_⟩
      · rw [← g1]; exact h1
      · simp only [splitNChars]
        rw [if_pos h, if_pos h']
    · left
      refine ⟨_, h', h1, ?_⟩
      simp only [splitNChars]
      rw [if_pos h, if_neg h']
  · left
    exact ⟨h, by simp [splitNChars, h]⟩

theorem count_cut (sep : Char) (a rest : List Char) (h : sep ∉ a) :
    (a ++ sep :: rest).count sep = rest.count sep + 1 := by
  rw [List.count_append, List.count_cons_self, List.count_eq_zero_of_not_mem h]
  omega

theorem ParseRequest_cases (request : String) :
    (request.toList.count ' ' < 2 ∧ ParseRequest request = none) ∨
    (∃ b c, ' ' ∉ request.toList.takeWhile (fun ch => ch ≠ ' ') ∧ ' ' ∉ b ∧
      request.toList =
        request.toList.takeWhile (fun ch => ch ≠ ' ') ++ ' ' :: (b ++ ' ' :: c) ∧
      2 ≤ request.toList.count ' ' ∧
      ParseRequest request =
        if methodToken request ∈ HTTP_METHODS then
          some (methodToken request, String.mk b, String.mk c)
        else none) := by
  rcases splitNChars_three ' ' request.toList with ⟨h1, h2⟩ | ⟨rest, h1, h2, h3⟩ |
    ⟨b, c, h1, h2, h3⟩
  · left
    refine ⟨?_, ?_⟩
    · rw [List.count_eq_zero_of_not_mem h1]; decide
    · simp only [ParseRequest, SplitN]
      rw [h2]
      simp
  · left
    have hnot : ' ' ∉ request.toList.takeWhile (fun ch => ch ≠ ' ') := by
      intro hc
      have := List.mem_takeWhile_imp hc
      simp at this
    refine ⟨?_, ?_⟩
    · rw [h2, count_cut ' ' _ rest hnot, List.count_eq_zero_of_not_mem h1]
      decide
    · simp only [ParseRequest, SplitN]
      rw [h3]
      simp
  · right
    have hnot : ' ' ∉ request.toList.takeWhile (fun ch => ch ≠ ' ') := by
      intro hc
      have := List.mem_takeWhile_imp hc
      simp at this
    refine ⟨b, c, hnot, h1, h2, ?_, ?_⟩
    · rw [h2, count_cut ' ' _ _ hnot, count_cut ' ' b c h1]
      omega
    · simp only [ParseRequest, SplitN, methodToken]
      rw [h3]
      by_cases hm : String.mk (request.toList.takeWhile (fun ch => ch ≠ ' ')) ∈ HTTP_METHODS
      · simp [hm]
      · simp [hm]

/-- C13, as stated, fails.  A request of four tokens is accepted, with a
version that holds the last two and the space between them; a request whose
three tokens are separated by two spaces and one is accepted with an empty
resource; and a request of one token followed by two spaces is accepted with an
empty resource and an empty version. -/
theorem ParseRequest_accepts_four_tokens :
    ParseRequest "GET /a HTTP/1.1 extra" = some ("GET", "/a", "HTTP/1.1 extra") ∧
    ParseRequest "GET  /a HTTP/1.1" = some ("GET", "", "/a HTTP/1.1") ∧
    ParseRequest "GET  " = some ("GET", "", "") := by
  decide

/-- C13, amended.  `ParseRequest` returns an error exactly when the request
has fewer than two space characters or the text before its first space is not
an allowed method; it does not count tokens.  A request with two or more
spaces is cut at its first two spaces only: when it is accepted, it is the
method, a space, the resource, a space and the version, where the method and
the resource contain no space and the version is all the rest, further spaces
included. -/
theorem ParseRequest_cuts_at_two_spaces (request : String) :
    (request.toList.count ' ' < 2 → ParseRequest request = none) ∧
    (∀ m r v, ParseRequest request = some (m, r, v) →
      request.toList = m.toList ++ ' ' :: (r.toList ++ ' ' :: v.toList) ∧
      ' ' ∉ m.toList ∧ ' ' ∉ r.toList ∧ 2 ≤ request.toList.count ' ') ∧
    (2 ≤ request.toList.count ' ' → methodToken request ∈ HTTP_METHODS →
      ∃ r v, ParseRequest request = some (methodToken request, r, v)) ∧
    (ParseRequest request = none ↔
      request.toList.count ' ' < 2 ∨ methodToken request ∉ HTTP_METHODS) := by
  rcases ParseRequest_cases request with ⟨h1, h2⟩ | ⟨b, c, h1, h2, h3, h4, h5⟩
  · refine ⟨fun _ => h2, ?_, ?_, ?_⟩
    · intro m r v h
      rw [h2] at h
      cases h
    · intro h
      omega
    · exact ⟨fun _ => Or.inl h1, fun _ => h2⟩
  · refine ⟨fun h => by omega, ?_, ?_, ?_⟩
    · intro m r v h
      rw [h5] at h
      by_cases hm : methodToken request ∈ HTTP_METHODS
      · rw [if_pos hm] at h
        simp only [Option.some.injEq, Prod.mk.injEq] at h
        obtain ⟨e1, e2, e3⟩ := h
        subst e1 e2 e3
        exact ⟨h3, h1, h2, h4⟩
      · rw [if_neg hm] at h
        cases h
    · intro _ hm
      rw [h5, if_pos hm]
      exact ⟨_, _, rfl⟩
    · rw [h5]
      by_cases hm : methodToken request ∈ HTTP_METHODS
      · rw [if_pos hm]
        constructor
        · intro hc
          cases hc
        · rintro (hc | hc)
          · omega
          · exact absurd hm hc
      · rw [if_neg hm]
        exact ⟨fun _ => Or.inr hm, fun _ => rfl⟩

/-- An instance: a request with one space only is rejected, and a request
with three spaces is cut at the first two. -/
theorem ParseRequest_cuts_at_two_spaces_witness :
    ParseRequest "GET /a" = none ∧
    ("GET /a HTTP/1.1 extra").toList =
      ("GET").toList ++ ' ' :: (("/a").toList ++ ' ' :: ("HTTP/1.1 extra").toList) :=
  ⟨(ParseRequest_cuts_at_two_spaces "GET /a").1 (by decide),
   ((ParseRequest_cuts_at_two_spaces "GET /a HTTP/1.1 extra").2.1
      "GET" "/a" "HTTP/1.1 extra" (by decide)).1⟩

/-- C14. `ParseRequest` returns an error whenever the text of the request
before its first space is not, letter for letter, one of GET, HEAD, POST, PUT,
DELETE, OPTIONS, TRACE and CONNECT; whenever it succeeds, the method it returns
is one of these eight and is the text of the request before its first space. -/
theorem ParseRequest_method (request : String) :
    (methodToken request ∉ HTTP_METHODS → ParseRequest request = none) ∧
    (∀ m r v, ParseRequest request = some (m, r, v) →
      m ∈ HTTP_METHODS ∧ m = methodToken request) ∧
    (∀ m, m ∈ HTTP_METHODS ↔
      m = "GET" ∨ m = "HEAD" ∨ m = "POST" ∨ m = "PUT" ∨ m = "DELETE" ∨ m = "OPTIONS" ∨
        m = "TRACE" ∨ m = "CONNECT") ∧
    ParseRequest "get / HTTP/1.1" = none ∧
    ParseRequest "PATCH / HTTP/1.1" = none ∧
    ParseRequest "GET / HTTP/1.1" = some ("GET", "/", "HTTP/1.1") := by
  refine ⟨?_, ?_, ?_, by decide, by decide, by decide⟩
  · intro hm
    rcases ParseRequest_cases request with ⟨-, h2⟩ | ⟨b, c, -, -, -, -, h5⟩
    · exact h2
    · rw [h5, if_neg hm]
  · intro m r v h
    rcases ParseRequest_cases request with ⟨-, h2⟩ | ⟨b, c, -, -, -, -, h5⟩
    · rw [h2] at h
      cases h
    · rw [h5] at h
      by_cases hm : methodToken request ∈ HTTP_METHODS
      · rw [if_pos hm] at h
        simp only [Option.some.injEq, Prod.mk.injEq] at h
        rw [← h.1]
        exact ⟨hm, rfl⟩
      · rw [if_neg hm] at h
        cases h
  · intro m
    simp [HTTP_METHODS]

/-! ## The line parser: status -/

theorem ParseHTTPStatus_of_Atoi (status : String) (code : Int) (h : Atoi status = some code) :
    (onAllowList code →
      ParseHTTPStatus status =
        some (code, decide ((400 ≤ code ∧ code ≤ 418) ∨ (500 ≤ code ∧ code ≤ 505)))) ∧
    (¬ onAllowList code → ParseHTTPStatus status = none) := by
  unfold ParseHTTPStatus
  rw [h]
  simp only [StatusContinue, StatusSwitchingProtocols, StatusOK, StatusCreated, StatusAccepted,
    StatusNonAuthoritativeInfo, StatusNoContent, StatusResetContent, StatusPartialContent,
    StatusMultipleChoices, StatusMovedPermanently, StatusFound, StatusSeeOther,
    StatusNotModified, StatusUseProxy, StatusTemporaryRedirect, StatusBadRequest,
    StatusUnauthorized, StatusPaymentRequired, StatusForbidden, StatusNotFound,
    StatusMethodNotAllowed, StatusNotAcceptable, StatusProxyAuthRequired, StatusRequestTimeout,
    StatusConflict, StatusGone, StatusLengthRequired, StatusPreconditionFailed,
    StatusRequestEntityTooLarge, StatusRequestURITooLong, StatusUnsupportedMediaType,
    StatusRequestedRangeNotSatisfiable, StatusExpectationFailed, StatusTeapot,
    StatusInternalServerError, StatusNotImplemented, StatusBadGateway,
    StatusServiceUnavailable, StatusGatewayTimeout, StatusHTTPVersionNotSupported, onAllowList]
  constructor
  · intro hal
    rw [if_neg (by omega)]
    simp only [Option.some.injEq, Prod.mk.injEq, true_and, decide_eq_decide]
    omega
  · intro hal
    rw [if_pos (by omega)]

/-- C15. `ParseHTTPStatus` succeeds exactly when the status string parses as a
decimal integer (as `strconv.Atoi` parses it) whose value is 100, 101, 200 to
206, 300 to 305, 307, 400 to 418 or 500 to 505, and it then returns that
integer; an integer off the list, such as 999, 306, 308 or 0, and a string that
is no integer give an error. -/
theorem ParseHTTPStatus_allow_list (status : String) :
    ((∃ code isError, ParseHTTPStatus status = some (code, isError)) ↔
      ∃ code, Atoi status = some code ∧ onAllowList code) ∧
    (∀ code isError, ParseHTTPStatus status = some (code, isError) →
      Atoi status = some code ∧ onAllowList code) ∧
    (∀ code, Atoi status = some code → ¬ onAllowList code → ParseHTTPStatus status = none) ∧
    (Atoi status = none → ParseHTTPStatus status = none) ∧
    ParseHTTPStatus "999" = none ∧ ParseHTTPStatus "306" = none ∧
    ParseHTTPStatus "308" = none ∧ ParseHTTPStatus "0" = none ∧
    ParseHTTPStatus "abc" = none ∧ ParseHTTPStatus "" = none ∧
    ParseHTTPStatus "200" = some (200, false) ∧ ParseHTTPStatus "307" = some (307, false) := by
  have key : ∀ code isError, ParseHTTPStatus status = some (code, isError) →
      Atoi status = some code ∧ onAllowList code := by
    intro code isError h
    cases ha : Atoi status with
    | none => simp [ParseHTTPStatus, ha] at h
    | some c =>
      obtain ⟨p1, p2⟩ := ParseHTTPStatus_of_Atoi status c ha
      by_cases hal : onAllowList c
      · rw [p1 hal] at h
        simp only [Option.some.injEq, Prod.mk.injEq] at h
        rw [← h.1]
        exact ⟨rfl, hal⟩
      · rw [p2 hal] at h
        cases h
  refine ⟨⟨?_, ?_⟩, key, ?_, ?_, by decide, by decide, by decide, by decide, by decide,
    by decide, by decide, by decide⟩
  · rintro ⟨code, isError, h⟩
    exact ⟨code, key code isError h⟩
  · rintro ⟨code, ha, hal⟩
    exact ⟨code, _, (ParseHTTPStatus_of_Atoi status code ha).1 hal⟩
  · intro code ha hal
    exact (ParseHTTPStatus_of_Atoi status code ha).2 hal
  · intro ha
    simp [ParseHTTPStatus, ha]

/-- C16, as stated, fails.  The status 418 is accepted and flagged as an
error, although it lies neither in 400 to 417 nor in 500 to 505. -/
theorem ParseHTTPStatus_flags_418 :
    ParseHTTPStatus "418" = some (418, true) := by
  decide

/-- C16, amended.  For every status string that `ParseHTTPStatus` accepts, the
error flag is true exactly when the code lies in 400 to 418 or in 500 to 505,
and false for every other accepted code. -/
theorem ParseHTTPStatus_error_flag (status : String) (code : Int) (isError : Bool)
    (h : ParseHTTPStatus status = some (code, isError)) :
    (isError = true ↔ (400 ≤ code ∧ code ≤ 418) ∨ (500 ≤ code ∧ code ≤ 505)) ∧
    (isError = false ↔
      code = 100 ∨ code = 101 ∨ (200 ≤ code ∧ code ≤ 206) ∨ (300 ≤ code ∧ code ≤ 305) ∨
        code = 307) := by
  cases ha : Atoi status with
  | none => simp [ParseHTTPStatus, ha] at h
  | some c =>
    obtain ⟨p1, p2⟩ := ParseHTTPStatus_of_Atoi status c ha
    by_cases hal : onAllowList c
    · rw [p1 hal] at h
      simp only [Option.some.injEq, Prod.mk.injEq] at h
      obtain ⟨e1, e2⟩ := h
      subst e1
      rw [← e2]
      unfold onAllowList at hal
      constructor
      · simp
      · simp only [decide_eq_false_iff_not]
        omega
    · rw [p2 hal] at h
      cases h

/-- Instances: 404 is flagged as an error, 200 is not. -/
theorem ParseHTTPStatus_error_flag_witness :
    (true = true ↔ (400 ≤ (404 : Int) ∧ (404 : Int) ≤ 418) ∨
      (500 ≤ (404 : Int) ∧ (404 : Int) ≤ 505)) ∧
    ParseHTTPStatus "404" = some (404, true) ∧
    ParseHTTPStatus "200" = some (200, false) ∧
    (false = true ↔ (400 ≤ (200 : Int) ∧ (200 : Int) ≤ 418) ∨
      (500 ≤ (200 : Int) ∧ (200 : Int) ≤ 505)) :=
  ⟨(ParseHTTPStatus_error_flag "404" 404 true (by decide)).1, by decide, by decide,
   (ParseHTTPStatus_error_flag "200" 200 false (by decide)).1⟩

/-! ## The line parser: events -/

theorem ParseLine_fields (lib : Library) (raw : String) (c : List String) (ext : Bool)
    (ts : Time) (m r v : String) (st : Int) (ie : Bool)
    (hline : (lib.TrimSpace raw).length ≠ 0)
    (hmatch : matchLine lib (lib.TrimSpace raw) = some (c, ext))
    (hts : lib.ParseTimestamp (c.getD 4 "") = some ts)
    (hreq : ParseRequest (c.getD 5 "") = some (m, r, v))
    (hst : ParseHTTPStatus (c.getD 6 "") = some (st, ie)) :
    ParseLine lib raw =
      match parseByteCount (c.getD 7 "") with
      | none => none
      | some n =>
        some
          { SectionName :=
              "/" ++ String.mk ((Trim r '/').toList.takeWhile (fun ch => ch ≠ '/'))
            Host := c.getD 1 ""
            Timestamp := ts
            Method := m
            Resource := r
            Version := v
            Bytes := n
            Status := st
            Referer := if ext then c.getD 8 "" else ""
            UserAgent := if ext then c.getD 9 "" else ""
            IsError := ie } := by
  unfold ParseLine
  simp only [if_neg hline, hmatch, hts, hreq, ParseResource_some r, hst]

theorem ParseLine_drops (lib : Library) (raw : String) (c : List String) (ext : Bool)
    (hmatch : matchLine lib (lib.TrimSpace raw) = some (c, ext))
    (hbad : lib.ParseTimestamp (c.getD 4 "") = none ∨ ParseRequest (c.getD 5 "") = none ∨
      ParseHTTPStatus (c.getD 6 "") = none ∨ parseByteCount (c.getD 7 "") = none) :
    ParseLine lib raw = none := by
  unfold ParseLine
  by_cases hline : (lib.TrimSpace raw).length = 0
  · simp only [if_pos hline]
  · simp only [if_neg hline, hmatch]
    cases h1 : lib.ParseTimestamp (c.getD 4 "") with
    | none => rfl
    | some ts =>
      cases h2 : ParseRequest (c.getD 5 "") with
      | none => rfl
      | some req =>
        obtain ⟨m, r, v⟩ := req
        simp only [ParseResource_some r]
        cases h3 : ParseHTTPStatus (c.getD 6 "") with
        | none => rfl
        | some sc =>
          obtain ⟨st, ie⟩ := sc
          cases h4 : parseByteCount (c.getD 7 "") with
          | none => rfl
          | some n =>
            rw [h1, h2, h3, h4] at hbad
            simp at hbad

/-- C11. For a line that is not blank once trimmed: when neither pattern
matches, `ParseLine` emits no event; with the groups of the extended pattern
if it matches and of the base pattern otherwise, `ParseLine` emits one event
when the timestamp, the request, the status and the byte count are all valid,
with host group 1, the parsed timestamp of group 4, the three parts of group 5,
the section of the resource, the status and error flag of group 6, the byte
count of group 7, and groups 8 and 9 as referer and user agent for the extended
pattern, both empty for the base pattern; and it emits no event when one of
the four is invalid. -/
theorem ParseLine_event (lib : Library) (raw : String)
    (hline : (lib.TrimSpace raw).length ≠ 0) :
    (∀ c, lib.ECLF_REGEXP (lib.TrimSpace raw) = some c →
      matchLine lib (lib.TrimSpace raw) = some (c, true)) ∧
    (∀ c, lib.ECLF_REGEXP (lib.TrimSpace raw) = none →
      lib.CLF_REGEXP (lib.TrimSpace raw) = some c →
      matchLine lib (lib.TrimSpace raw) = some (c, false)) ∧
    (lib.ECLF_REGEXP (lib.TrimSpace raw) = none → lib.CLF_REGEXP (lib.TrimSpace raw) = none →
      ParseLine lib raw = none) ∧
    (∀ c ext, matchLine lib (lib.TrimSpace raw) = some (c, ext) →
      (∀ ts m r v st ie n,
        lib.ParseTimestamp (c.getD 4 "") = some ts →
        ParseRequest (c.getD 5 "") = some (m, r, v) →
        ParseHTTPStatus (c.getD 6 "") = some (st, ie) →
        parseByteCount (c.getD 7 "") = some n →
        ∃ sec, ParseResource r = some sec ∧
          ParseLine lib raw =
            some
              { SectionName := sec
                Host := c.getD 1 ""
                Timestamp := ts
                Method := m
                Resource := r
                Version := v
                Bytes := n
                Status := st
                Referer := if ext then c.getD 8 "" else ""
                UserAgent := if ext then c.getD 9 "" else ""
                IsError := ie }) ∧
      ((lib.ParseTimestamp (c.getD 4 "") = none ∨ ParseRequest (c.getD 5 "") = none ∨
          ParseHTTPStatus (c.getD 6 "") = none ∨ parseByteCount (c.getD 7 "") = none) →
        ParseLine lib raw = none)) := by
  refine ⟨?_, ?_, ?_, ?_⟩
  · intro c h
    simp [matchLine, h]
  · intro c h1 h2
    simp [matchLine, h1, h2]
  · intro h1 h2
    simp [ParseLine, matchLine, h1, h2]
  · intro c ext hmatch
    constructor
    · intro ts m r v st ie n hts hreq hst hb
      refine ⟨_, ParseResource_some r, ?_⟩
      rw [ParseLine_fields lib raw c ext ts m r v st ie hline hmatch hts hreq hst, hb]
    · exact ParseLine_drops lib raw c ext hmatch

/-- Instances: a line of the base pattern and a line of the extended pattern,
with the events they give, and a line no pattern matches. -/
theorem ParseLine_event_witness :
    ParseLine sampleLibrary
        "127.0.0.1 - frank [10/Oct/2000:13:55:36 -0700] \"GET /apache_pb.gif HTTP/1.0\" 200 2326" =
      some
        { SectionName := "/apache_pb.gif"
          Host := "127.0.0.1"
          Timestamp := 971211336
          Method := "GET"
          Resource := "/apache_pb.gif"
          Version := "HTTP/1.0"
          Bytes := 2326
          Status := 200
          Referer := ""
          UserAgent := ""
          IsError := false } ∧
    ParseLine sampleLibrary
        "10.0.0.7 - - [10/Oct/2000:13:55:36 -0700] \"POST /api/v1/users HTTP/1.1\" 404 - \"http://example.org/\" \"curl/8.0\"" =
      some
        { SectionName := "/api"
          Host := "10.0.0.7"
          Timestamp := 971211336
          Method := "POST"
          Resource := "/api/v1/users"
          Version := "HTTP/1.1"
          Bytes := 0
          Status := 404
          Referer := "http://example.org/"
          UserAgent := "curl/8.0"
          IsError := true } ∧
    ParseLine sampleLibrary "not a log line" = none := by
  refine ⟨?_, by decide, ?_⟩
  · obtain ⟨sec, h1, h2⟩ := ((ParseLine_event sampleLibrary
      "127.0.0.1 - frank [10/Oct/2000:13:55:36 -0700] \"GET /apache_pb.gif HTTP/1.0\" 200 2326"
      (by decide)).2.2.2
      ["127.0.0.1 - frank [10/Oct/2000:13:55:36 -0700] \"GET /apache_pb.gif HTTP/1.0\" 200 2326",
        "127.0.0.1", "-", "frank", "10/Oct/2000:13:55:36 -0700",
        "GET /apache_pb.gif HTTP/1.0", "200", "2326"]
      false (by decide)).1 971211336 "GET" "/apache_pb.gif" "HTTP/1.0" 200 false 2326
      (by decide) (by decide) (by decide) (by decide)
    have hs : ParseResource "/apache_pb.gif" = some "/apache_pb.gif" := by decide
    rw [hs] at h1
    simp only [Option.some.injEq] at h1
    rw [h2, ← h1]
    rfl
  · exact (ParseLine_event sampleLibrary "not a log line" (by decide)).2.2.1 (by decide)
      (by decide)

/-- C17. For a line whose timestamp, request and status are valid: the byte
field `"-"` gives an event with byte count 0, a byte field that parses as a
decimal integer gives an event with that integer as byte count, and any other
byte field gives no event. -/
theorem ParseLine_byte_count (lib : Library) (raw : String) (c : List String) (ext : Bool)
    (ts : Time) (m r v : String) (st : Int) (ie : Bool)
    (hline : (lib.TrimSpace raw).length ≠ 0)
    (hmatch : matchLine lib (lib.TrimSpace raw) = some (c, ext))
    (hts : lib.ParseTimestamp (c.getD 4 "") = some ts)
    (hreq : ParseRequest (c.getD 5 "") = some (m, r, v))
    (hst : ParseHTTPStatus (c.getD 6 "") = some (st, ie)) :
    (c.getD 7 "" = "-" → ∃ ev, ParseLine lib raw = some ev ∧ ev.Bytes = 0) ∧
    (∀ n, Atoi (c.getD 7 "") = some n → ∃ ev, ParseLine lib raw = some ev ∧ ev.Bytes = n) ∧
    (c.getD 7 "" ≠ "-" → Atoi (c.getD 7 "") = none → ParseLine lib raw = none) := by
  have hfields := ParseLine_fields lib raw c ext ts m r v st ie hline hmatch hts hreq hst
  refine ⟨?_, ?_, ?_⟩
  · intro h
    have hb : parseByteCount (c.getD 7 "") = some 0 := by
      simp only [parseByteCount, h]
      rfl
    rw [hb] at hfields
    exact ⟨_, hfields, rfl⟩
  · intro n h
    have hne : c.getD 7 "" ≠ "-" := by
      intro hc
      rw [hc] at h
      have hdash : Atoi "-" = none := by decide
      rw [hdash] at h
      cases h
    have hb : parseByteCount (c.getD 7 "") = some n := by
      simp only [parseByteCount, if_pos hne, h]
    rw [hb] at hfields
    exact ⟨_, hfields, rfl⟩
  · intro hne h
    have hb : parseByteCount (c.getD 7 "") = none := by
      simp only [parseByteCount, if_pos hne, h]
    rw [hb] at hfields
    exact hfields

/-- An instance: the byte field `"2326"` of the sample base line gives byte
count 2326. -/
theorem ParseLine_byte_count_witness :
    ∃ ev, ParseLine sampleLibrary
        "127.0.0.1 - frank [10/Oct/2000:13:55:36 -0700] \"GET /apache_pb.gif HTTP/1.0\" 200 2326" =
      some ev ∧ ev.Bytes = 2326 :=
  (ParseLine_byte_count sampleLibrary
    "127.0.0.1 - frank [10/Oct/2000:13:55:36 -0700] \"GET /apache_pb.gif HTTP/1.0\" 200 2326"
    ["127.0.0.1 - frank [10/Oct/2000:13:55:36 -0700] \"GET /apache_pb.gif HTTP/1.0\" 200 2326",
      "127.0.0.1", "-", "frank", "10/Oct/2000:13:55:36 -0700",
      "GET /apache_pb.gif HTTP/1.0", "200", "2326"]
    false 971211336 "GET" "/apache_pb.gif" "HTTP/1.0" 200 false
    (by decide) (by decide) (by decide) (by decide) (by decide)).2.1 2326 (by decide)

/-! ## Descriptor sets -/

set_option maxRecDepth 100000 in
theorem fdMask_small : ∀ i, i < 64 → fdMask i = if i < 6 then 2 ^ i else 0 := by
  decide

theorem fdMask_eq (i : Nat) : fdMask i = if i < 6 then 2 ^ i else 0 := by
  by_cases h : i < 64
  · exact fdMask_small i h
  · have h6 : ¬ i < 6 := by omega
    rw [if_neg h6]
    obtain ⟨k, hk⟩ : ∃ k, i = 64 + k := ⟨i - 64, by omega⟩
    have hz : toInt64 (1 * 2 ^ i) = 0 := by
      unfold toInt64
      rw [hk, pow_add, one_mul, add_comm, Int.add_mul_emod_self_left]
      decide
    unfold fdMask
    rw [hz]
    rfl

set_option maxRecDepth 100000 in
theorem land_masks : ∀ i, i < 6 → ∀ j, j < 6 →
    ((Int.land (Int.lor 0 (2 ^ i)) (2 ^ j) ≠ 0 ↔ i = j) ∧
      Int.land (Int.lor 0 (2 ^ i)) 0 = 0 ∧
      Int.land (Int.lor 0 0) (2 ^ j) = 0 ∧
      Int.land 0 (2 ^ j) = 0) := by
  decide

theorem land_zero_masks : Int.land (Int.lor 0 0) 0 = 0 ∧ Int.land 0 0 = 0 := by
  decide

theorem land_fdMask (i j : Nat) :
    (Int.land (Int.lor 0 (fdMask i)) (fdMask j) ≠ 0 ↔ (i = j ∧ i < 6)) ∧
    Int.land 0 (fdMask j) = 0 := by
  rw [fdMask_eq i, fdMask_eq j]
  by_cases hi : i < 6
  · by_cases hj : j < 6
    · obtain ⟨h1, -, -, h4⟩ := land_masks i hi j hj
      rw [if_pos hi, if_pos hj]
      refine ⟨⟨fun c => ⟨h1.1 c, hi⟩, fun c => h1.2 c.1⟩, h4⟩
    · obtain ⟨-, h2, -, -⟩ := land_masks i hi 0 (by omega)
      rw [if_pos hi, if_neg hj]
      refine ⟨⟨fun c => absurd h2 c, fun c => ?_⟩, land_zero_masks.2⟩
      omega
  · by_cases hj : j < 6
    · obtain ⟨-, -, h3, h4⟩ := land_masks 0 (by omega) j hj
      rw [if_neg hi, if_pos hj]
      refine ⟨⟨fun c => absurd h3 c, fun c => ?_⟩, h4⟩
      omega
    · rw [if_neg hi, if_neg hj]
      refine ⟨⟨fun c => absurd land_zero_masks.1 c, fun c => ?_⟩, land_zero_masks.2⟩
      omega

theorem setThenTest_eq (p : FdSet) (i j : Nat) (hp : p.Bits.length = 16)
    (hi : i < 1024) (hj : j < 1024) :
    setThenTest p i j = some (decide (i = j ∧ i < 6)) := by
  have hi' : i / 64 < (FD_ZERO p).Bits.length := by
    simp only [FD_ZERO, List.length_map, hp]; omega
  have hw : (FD_ZERO p).Bits[i / 64]? = some 0 := by
    rw [List.getElem?_eq_getElem hi']
    simp [FD_ZERO]
  simp only [setThenTest, FD_SET, hw, FD_ISSET]
  obtain ⟨m1, m2⟩ := land_fdMask i j
  by_cases hword : i / 64 = j / 64
  · have hget : ((FD_ZERO p).Bits.set (i / 64) (Int.lor 0 (fdMask i)))[j / 64]? =
        some (Int.lor 0 (fdMask i)) := by
      rw [← hword, List.getElem?_set_self hi']
    rw [hget]
    simp only [Option.some.injEq, decide_eq_decide]
    exact m1
  · have hj' : j / 64 < (FD_ZERO p).Bits.length := by
      simp only [FD_ZERO, List.length_map, hp]; omega
    have hget : ((FD_ZERO p).Bits.set (i / 64) (Int.lor 0 (fdMask i)))[j / 64]? = some 0 := by
      rw [List.getElem?_set_ne hword, List.getElem?_eq_getElem hj']
      simp [FD_ZERO]
    rw [hget]
    simp only [Option.some.injEq, decide_eq_decide]
    have hne : i ≠ j := fun c => hword (by rw [c])
    constructor
    · intro c; exact absurd m2 c
    · intro c; exact absurd c.1 hne

/-- C18, where the code departs from it.  After `FD_ZERO` and `FD_SET` of a
descriptor `i` below 1024, `FD_ISSET` of a descriptor `j` below 1024 is true
exactly when `j` is `i` and `i` is below 6: the operand `1 << uint(i) % 64` is
`(1 << uint(i)) % 64`, which is bit `i` for `i` below 6 and zero from 6 on, not
bit `i mod 64`.  So for every `i` from 6 on `FD_SET` sets no bit and `FD_ISSET`
of `i` itself is false. -/
theorem FD_SET_then_FD_ISSET (p : FdSet) (i j : Nat) (hp : p.Bits.length = 16)
    (hi : i < 1024) (hj : j < 1024) :
    setThenTest p i j = some (decide (i = j ∧ i < 6)) ∧
    (i < 6 → setThenTest p i i = some true) ∧
    (6 ≤ i → setThenTest p i i = some false ∧ FD_SET (FD_ZERO p) i = some (FD_ZERO p)) ∧
    (i ≠ j → setThenTest p i j = some false) ∧
    fdMask i = (if i < 6 then 2 ^ i else 0) ∧
    (6 ≤ i → fdMask i ≠ 2 ^ (i % 64)) := by
  have hfalse : 6 ≤ i → fdMask i = 0 := by
    intro h6
    rw [fdMask_eq, if_neg (by omega)]
  refine ⟨setThenTest_eq p i j hp hi hj, ?_, ?_, ?_, fdMask_eq i, ?_⟩
  · intro h
    rw [setThenTest_eq p i i hp hi hi]
    simp [h]
  · intro h
    constructor
    · rw [setThenTest_eq p i i hp hi hi]
      have : ¬ i < 6 := by omega
      simp [this]
    · have hi' : i / 64 < (FD_ZERO p).Bits.length := by
        simp only [FD_ZERO, List.length_map, hp]; omega
      have hw : (FD_ZERO p).Bits[i / 64]? = some 0 := by
        rw [List.getElem?_eq_getElem hi']
        simp [FD_ZERO]
      simp only [FD_SET, hw, hfalse h, land_zero_masks]
      have hl : Int.lor 0 0 = 0 := by decide
      rw [hl]
      have hset : (FD_ZERO p).Bits.set (i / 64) 0 = (FD_ZERO p).Bits := by
        apply List.ext_getElem?
        intro n
        by_cases hn : i / 64 = n
        · rw [← hn, List.getElem?_set_self hi', hw]
        · rw [List.getElem?_set_ne hn]
      rw [hset]
  · intro h
    rw [setThenTest_eq p i j hp hi hj]
    simp [h]
  · intro h
    rw [hfalse h]
    exact (pow_pos (by decide : (0 : Int) < 2) _).ne

/-- The failing input: descriptor 6.  After `FD_ZERO` and `FD_SET` of 6 the
set is all zero and `FD_ISSET` of 6 is false, while descriptor 5 is found. -/
theorem FD_SET_then_FD_ISSET_witness :
    setThenTest { Bits := List.replicate 16 (-1) } 6 6 = some false ∧
    FD_SET (FD_ZERO { Bits := List.replicate 16 (-1) }) 6 =
      some { Bits := List.replicate 16 0 } ∧
    setThenTest { Bits := List.replicate 16 (-1) } 5 5 = some true := by
  have h := FD_SET_then_FD_ISSET { Bits := List.replicate 16 (-1) } 6 6 (by decide)
    (by decide) (by decide)
  refine ⟨(h.2.2.1 (by decide)).1, ?_, by decide⟩
  rw [(h.2.2.1 (by decide)).2]
  decide

/-! ## Byte and error totals -/

theorem sums_storeSection (n : String) (sec old : Section)
    (S : List (String × Section)) (h : lookupSection n S = some old) :
    sumBytesTransferred (storeSection n sec S) =
      sumBytesTransferred S - old.BytesTransferred + sec.BytesTransferred ∧
    sumErrorCount (storeSection n sec S) =
      sumErrorCount S - old.ErrorCount + sec.ErrorCount := by
  induction S with
  | nil => simp [lookupSection] at h
  | cons x S ih =>
    obtain ⟨k', s'⟩ := x
    simp only [lookupSection] at h
    by_cases hk : k' = n
    · simp only [hk, if_true, Option.some.injEq] at h
      subst h
      simp only [storeSection, hk, if_true, sumBytesTransferred, sumErrorCount, List.map_cons,
        List.sum_cons]
      constructor <;> omega
    · simp only [hk, if_false] at h
      have := ih h
      simp only [storeSection, hk, if_false, sumBytesTransferred, sumErrorCount, List.map_cons,
        List.sum_cons] at this ⊢
      constructor <;> omega

theorem sums_foldSection (e : Event) (S : List (String × Section)) :
    toInt64 (sumBytesTransferred (foldSection e S).1) =
      toInt64 (sumBytesTransferred S + e.Bytes) ∧
    sumErrorCount (foldSection e S).1 = sumErrorCount S + (if e.IsError then 1 else 0) := by
  unfold foldSection
  cases h : lookupSection e.SectionName S with
  | some old =>
    simp only
    obtain ⟨h1, h2⟩ := sums_storeSection e.SectionName
      { Name := old.Name
        HitCount := old.HitCount + 1
        BytesTransferred := toInt64 (old.BytesTransferred + e.Bytes)
        ErrorCount := if e.IsError then old.ErrorCount + 1 else old.ErrorCount } old S h
    rw [h1, h2]
    simp only
    constructor
    · exact toInt64_swap _ _ _
    · cases e.IsError
      · simp
      · simp only [if_true]
        omega
  | none =>
    simp only [sumBytesTransferred, sumErrorCount, List.map_append, List.sum_append,
      List.map_cons, List.map_nil, List.sum_cons, List.sum_nil, add_zero, true_and]
    cases e.IsError <;> simp

theorem sums_resetSections (S : List (String × Section)) :
    sumBytesTransferred (resetSections S) = 0 ∧ sumErrorCount (resetSections S) = 0 := by
  induction S with
  | nil => exact ⟨rfl, rfl⟩
  | cons x S ih =>
    obtain ⟨k', s'⟩ := x
    simp only [sumBytesTransferred, sumErrorCount, resetSections, List.map_cons,
      List.sum_cons] at ih ⊢
    constructor <;> omega

theorem section_totals_run (hitLimit : Int) (steps : List Step) :
    toInt64 (sumBytesTransferred (run (SetWebService hitLimit) steps).1.Sections) =
      (run (SetWebService hitLimit) steps).1.BytesTransferred ∧
    sumErrorCount (run (SetWebService hitLimit) steps).1.Sections =
      (run (SetWebService hitLimit) steps).1.ErrorCount := by
  induction steps using List.reverseRecOn with
  | nil => exact ⟨(by show toInt64 0 = 0; decide), rfl⟩
  | append_singleton xs x ih =>
    obtain ⟨ih1, ih2⟩ := ih
    rw [run_snoc]
    cases x with
    | event e =>
      obtain ⟨f1, f2⟩ := sums_foldSection e (run (SetWebService hitLimit) xs).1.Sections
      simp only [step, HandleEvents]
      rw [f1, f2, ← ih1, ih2, toInt64_add_toInt64]
      constructor
      · rfl
      · cases e.IsError <;> simp
    | report t =>
      obtain ⟨r1, r2⟩ := sums_resetSections (run (SetWebService hitLimit) xs).1.Sections
      simp only [step, PrintPeriodicStats]
      rw [r1]
      exact ⟨by decide, r2⟩
    | traffic t =>
      simp only [step]
      unfold WatchTraffic
      split <;> exact ⟨ih1, ih2⟩

set_option maxRecDepth 100000 in
/-- C19, as stated, fails.  After one event for "/a" and one for "/b", each
with the largest byte count an `int` holds, which the parser accepts, the two
sections sum to 18446744073709551614 bytes while the global counter holds -2. -/
theorem section_bytes_sum_differs :
    parseByteCount "9223372036854775807" = some 9223372036854775807 ∧
    sumBytesTransferred (run (SetWebService 20)
      (events [hit "/a" 9223372036854775807 false,
        hit "/b" 9223372036854775807 false])).1.Sections = 18446744073709551614 ∧
    (run (SetWebService 20)
      (events [hit "/a" 9223372036854775807 false,
        hit "/b" 9223372036854775807 false])).1.BytesTransferred = -2 := by
  decide

/-- C19, amended.  In every state reached from the initial state by any
interleaving of event steps, reporting ticks and traffic ticks, the sum of
`BytesTransferred` over all sections, reduced to 64 bits, is the global
`BytesTransferred`, and the two are equal whenever the sum over the sections
lies within the range of a 64-bit `int`; the sum of `ErrorCount` over all
sections is the global `ErrorCount`. -/
theorem section_totals_invariant (hitLimit : Int) (steps : List Step) :
    toInt64 (sumBytesTransferred (run (SetWebService hitLimit) steps).1.Sections) =
      (run (SetWebService hitLimit) steps).1.BytesTransferred ∧
    (-(2 : Int) ^ 63 ≤ sumBytesTransferred (run (SetWebService hitLimit) steps).1.Sections →
      sumBytesTransferred (run (SetWebService hitLimit) steps).1.Sections < (2 : Int) ^ 63 →
      sumBytesTransferred (run (SetWebService hitLimit) steps).1.Sections =
        (run (SetWebService hitLimit) steps).1.BytesTransferred) ∧
    sumErrorCount (run (SetWebService hitLimit) steps).1.Sections =
      (run (SetWebService hitLimit) steps).1.ErrorCount := by
  obtain ⟨h1, h2⟩ := section_totals_run hitLimit steps
  refine ⟨h1, ?_, h2⟩
  intro r1 r2
  rw [← h1, toInt64_of_range _ r1 r2]

set_option maxRecDepth 100000 in
/-- An instance: events of 700 and 500 bytes for two sections and one with the
error flag. -/
theorem section_totals_invariant_witness :
    sumBytesTransferred (run (SetWebService 20)
      (events [hit "/a" 700 false, hit "/b" 500 true])).1.Sections = 1200 ∧
    (run (SetWebService 20)
      (events [hit "/a" 700 false, hit "/b" 500 true])).1.BytesTransferred = 1200 ∧
    (run (SetWebService 20)
      (events [hit "/a" 700 false, hit "/b" 500 true])).1.ErrorCount = 1 := by
  have h := section_totals_invariant 20 (events [hit "/a" 700 false, hit "/b" 500 true])
  have hs : sumBytesTransferred (run (SetWebService 20)
      (events [hit "/a" 700 false, hit "/b" 500 true])).1.Sections = 1200 := by decide
  refine ⟨hs, ?_, by decide⟩
  rw [← h.2.1 (by rw [hs]; decide) (by rw [hs]; decide)]
  exact hs

/-! ## The sign of byte counts -/

theorem ParseLine_some_bytes (lib : Library) (raw : String) (c : List String) (ext : Bool)
    (ev : Event) (hmatch : matchLine lib (lib.TrimSpace raw) = some (c, ext))
    (hev : ParseLine lib raw = some ev) :
    parseByteCount (c.getD 7 "") = some ev.Bytes := by
  unfold ParseLine at hev
  by_cases hline : (lib.TrimSpace raw).length = 0
  · simp only [if_pos hline] at hev
    cases hev
  · simp only [if_neg hline, hmatch] at hev
    cases h1 : lib.ParseTimestamp (c.getD 4 "") with
    | none =>
      simp only [h1] at hev
      cases hev
    | some ts =>
      cases h2 : ParseRequest (c.getD 5 "") with
      | none =>
        simp only [h1, h2] at hev
        cases hev
      | some req =>
        obtain ⟨m, r, v⟩ := req
        cases h3 : ParseHTTPStatus (c.getD 6 "") with
        | none =>
          simp only [h1, h2, h3, ParseResource_some r] at hev
          cases hev
        | some sc =>
          obtain ⟨st, ie⟩ := sc
          cases h4 : parseByteCount (c.getD 7 "") with
          | none =>
            simp only [h1, h2, h3, h4, ParseResource_some r] at hev
            cases hev
          | some n =>
            simp only [h1, h2, h3, h4, ParseResource_some r, Option.some.injEq] at hev
            rw [← hev]

theorem bytesOf_nonneg (w : List Event) (h : ∀ e ∈ w, 0 ≤ e.Bytes) : 0 ≤ bytesOf w := by
  induction w with
  | nil => exact le_refl _
  | cons e w ih =>
    have h1 := h e (List.mem_cons_self _ _)
    have h2 := ih (fun e' he' => h e' (List.mem_cons_of_mem _ he'))
    simp only [bytesOf, List.map_cons, List.sum_cons] at h2 ⊢
    omega

theorem foldSection_bytes_bound (e : Event) (S : List (String × Section)) (total : Int)
    (he : 0 ≤ e.Bytes) (h0 : 0 ≤ total) (hsum : total + e.Bytes < (2 : Int) ^ 63)
    (hS : ∀ k sec, (k, sec) ∈ S → 0 ≤ sec.BytesTransferred ∧ sec.BytesTransferred ≤ total) :
    ∀ k sec, (k, sec) ∈ (foldSection e S).1 →
      0 ≤ sec.BytesTransferred ∧ sec.BytesTransferred ≤ total + e.Bytes := by
  intro k sec hm
  rcases mem_foldSection hm with hm | ⟨-, ht⟩
  · have := hS k sec hm
    constructor <;> omega
  · rw [ht]
    unfold foldSection
    cases hl : lookupSection e.SectionName S with
    | some old =>
      obtain ⟨o1, o2⟩ := hS _ old (lookupSection_mem hl)
      simp only
      rw [toInt64_of_range _ (by omega) (by omega)]
      constructor <;> omega
    | none =>
      simp only
      constructor <;> omega

theorem bytes_window_run (hitLimit : Int) (steps : List Step)
    (hnn : ∀ e ∈ eventsSinceReport steps, 0 ≤ e.Bytes)
    (hsum : bytesOf (eventsSinceReport steps) < (2 : Int) ^ 63) :
    (∀ k sec, (k, sec) ∈ (run (SetWebService hitLimit) steps).1.Sections →
      0 ≤ sec.BytesTransferred ∧ sec.BytesTransferred ≤ bytesOf (eventsSinceReport steps)) ∧
    (run (SetWebService hitLimit) steps).1.BytesTransferred =
      bytesOf (eventsSinceReport steps) := by
  induction steps using List.reverseRecOn with
  | nil =>
    constructor
    · intro k sec hm
      simp [run, runFrom, SetWebService] at hm
    · rfl
  | append_singleton xs x ih =>
    rw [run_snoc]
    rw [eventsSinceReport_snoc] at hnn hsum ⊢
    cases x with
    | event e =>
      simp only at hnn hsum ⊢
      have he : 0 ≤ e.Bytes := hnn e (by simp)
      have hxs : ∀ e' ∈ eventsSinceReport xs, 0 ≤ e'.Bytes :=
        fun e' he' => hnn e' (List.mem_append_left _ he')
      have h0 := bytesOf_nonneg _ hxs
      rw [bytesOf_snoc] at hsum ⊢
      obtain ⟨ih1, ih2⟩ := ih hxs (by omega)
      constructor
      · simp only [step, HandleEvents]
        exact foldSection_bytes_bound e _ _ he h0 hsum ih1
      · simp only [step, HandleEvents]
        rw [ih2]
        exact toInt64_of_range _ (by omega) hsum
    | report t =>
      constructor
      · intro k sec hm
        simp only [step, PrintPeriodicStats] at hm
        rw [(mem_resetSections hm).2.1]
        exact ⟨le_refl _, le_refl _⟩
      · rfl
    | traffic t =>
      simp only at hnn hsum ⊢
      obtain ⟨ih1, ih2⟩ := ih hnn hsum
      simp only [step]
      unfold WatchTraffic
      split <;> exact ⟨ih1, ih2⟩

set_option maxRecDepth 100000 in
/-- C20, as stated, fails.  The byte field `-4096` is accepted and gives an
event with byte count -4096; after that event the section and the global
counter hold -4096 bytes and the reporter prints -4 KB.  And two accepted,
non-negative byte counts, 9223372036854775807 and 4096, leave the counters
negative and make the reporter print -9007199254740988 KB. -/
theorem ParseLine_negative_bytes :
    ParseLine sampleLibrary
        "127.0.0.1 - frank [10/Oct/2000:13:55:36 -0700] \"GET /apache_pb.gif HTTP/1.0\" 200 -4096" =
      some
        { SectionName := "/apache_pb.gif"
          Host := "127.0.0.1"
          Timestamp := 971211336
          Method := "GET"
          Resource := "/apache_pb.gif"
          Version := "HTTP/1.0"
          Bytes := -4096
          Status := 200
          Referer := ""
          UserAgent := ""
          IsError := false } ∧
    (run (SetWebService 20)
      [Step.event
        { SectionName := "/apache_pb.gif"
          Host := "127.0.0.1"
          Timestamp := 971211336
          Method := "GET"
          Resource := "/apache_pb.gif"
          Version := "HTTP/1.0"
          Bytes := -4096
          Status := 200
          Referer := ""
          UserAgent := ""
          IsError := false }]).1.BytesTransferred = -4096 ∧
    lookupSection "/apache_pb.gif" (run (SetWebService 20)
      [Step.event
        { SectionName := "/apache_pb.gif"
          Host := "127.0.0.1"
          Timestamp := 971211336
          Method := "GET"
          Resource := "/apache_pb.gif"
          Version := "HTTP/1.0"
          Bytes := -4096
          Status := 200
          Referer := ""
          UserAgent := ""
          IsError := false }]).1.Sections =
      some { Name := "/apache_pb.gif", HitCount := 1, BytesTransferred := -4096,
             ErrorCount := 0 } ∧
    (PrintPeriodicStats 1 (run (SetWebService 20)
      [Step.event
        { SectionName := "/apache_pb.gif"
          Host := "127.0.0.1"
          Timestamp := 971211336
          Method := "GET"
          Resource := "/apache_pb.gif"
          Version := "HTTP/1.0"
          Bytes := -4096
          Status := 200
          Referer := ""
          UserAgent := ""
          IsError := false }]).1).2 =
      [Output.summary 1 (-4) 0 "/apache_pb.gif" 1] ∧
    parseByteCount "9223372036854775807" = some 9223372036854775807 ∧
    (run (SetWebService 20)
      (events [hit "/a" 9223372036854775807 false,
        hit "/a" 4096 false])).1.BytesTransferred = -9223372036854771713 ∧
    (PrintPeriodicStats 1 (run (SetWebService 20)
      (events [hit "/a" 9223372036854775807 false, hit "/a" 4096 false])).1).2 =
      [Output.summary 1 (-9007199254740988) 0 "/a" 2] := by
  decide

/-- C20, amended.  Every event `ParseLine` emits has the byte count that the
byte field parses to: 0 for `"-"`, otherwise the integer `strconv.Atoi` gives,
which is negative for a field such as `-4096`.  In every state reached from
the initial state in which the events folded since the last reporting tick
have non-negative byte counts that sum to less than 2^63, each section's
`BytesTransferred` and the global `BytesTransferred` are non-negative, and so
is the kilobyte figure the reporter prints. -/
theorem bytes_nonneg_of_nonneg_events (hitLimit : Int) (steps : List Step) (t : Time)
    (hnn : ∀ e ∈ eventsSinceReport steps, 0 ≤ e.Bytes)
    (hsum : bytesOf (eventsSinceReport steps) < (2 : Int) ^ 63) :
    (∀ k sec, (k, sec) ∈ (run (SetWebService hitLimit) steps).1.Sections →
      0 ≤ sec.BytesTransferred) ∧
    0 ≤ (run (SetWebService hitLimit) steps).1.BytesTransferred ∧
    (∀ kb errs name hits,
      Output.summary t kb errs name hits ∈
        (PrintPeriodicStats t (run (SetWebService hitLimit) steps).1).2 → 0 ≤ kb) ∧
    (∀ (lib : Library) (raw : String) (c : List String) (ext : Bool) (ev : Event),
      matchLine lib (lib.TrimSpace raw) = some (c, ext) → ParseLine lib raw = some ev →
      (c.getD 7 "" = "-" ∧ ev.Bytes = 0) ∨
        (c.getD 7 "" ≠ "-" ∧ Atoi (c.getD 7 "") = some ev.Bytes)) := by
  obtain ⟨h1, h2⟩ := bytes_window_run hitLimit steps hnn hsum
  have h0 := bytesOf_nonneg _ hnn
  have hglobal : 0 ≤ (run (SetWebService hitLimit) steps).1.BytesTransferred := by
    rw [h2]; exact h0
  refine ⟨fun k sec hm => (h1 k sec hm).1, hglobal, ?_, ?_⟩
  · intro kb errs name hits hm
    simp only [PrintPeriodicStats] at hm
    cases hb : (run (SetWebService hitLimit) steps).1.BusiestSection with
    | none => simp [hb] at hm
    | some b =>
      simp only [hb, List.mem_singleton, Output.summary.injEq] at hm
      rw [hm.2.1]
      exact Int.tdiv_nonneg hglobal (by decide)
  · intro lib raw c ext ev hmatch hev
    have hb := ParseLine_some_bytes lib raw c ext ev hmatch hev
    unfold parseByteCount at hb
    by_cases hdash : c.getD 7 "" = "-"
    · left
      rw [if_neg (fun hc => hc hdash)] at hb
      simp only [Option.some.injEq] at hb
      exact ⟨hdash, hb.symm⟩
    · right
      rw [if_pos hdash] at hb
      exact ⟨hdash, hb⟩

set_option maxRecDepth 100000 in
/-- An instance: two events of 1000 and 2000 bytes are reported as 2 KB. -/
theorem bytes_nonneg_of_nonneg_events_witness :
    (0 : Int) ≤ (run (SetWebService 20)
      [Step.event (hit "/a" 1000 false), Step.event (hit "/b" 2000 true)]).1.BytesTransferred ∧
    (PrintPeriodicStats 3 (run (SetWebService 20)
      [Step.event (hit "/a" 1000 false), Step.event (hit "/b" 2000 true)]).1).2 =
      [Output.summary 3 2 1 "/a" 1] :=
  ⟨(bytes_nonneg_of_nonneg_events 20
      [Step.event (hit "/a" 1000 false), Step.event (hit "/b" 2000 true)] 3
      (by
        intro e he
        have hw : eventsSinceReport
            [Step.event (hit "/a" 1000 false), Step.event (hit "/b" 2000 true)] =
            [hit "/a" 1000 false, hit "/b" 2000 true] := rfl
        rw [hw] at he
        simp only [List.mem_cons, List.mem_singleton, List.not_mem_nil, or_false] at he
        rcases he with he | he <;> (rw [he]; decide))
      (by decide)).2.1, by decide⟩

end Httptop
